import Mathlib

/-!
Verification of the `bups-engine` simulation core against its specification.

This file gives a shallow embedding, over exact rationals, of the parts of
the engine that the specification's claims talk about:

* the math primitives the code uses (`THREE.Vector3`, `THREE.Quaternion`,
  `THREE.Matrix4` restricted to the operations the core calls);
* `Transform` (`src/engine/core/Transform.ts`): local state, dirty flag,
  lazy local-matrix recomputation, recursive world-matrix read;
* `RigidBody` (`src/engine/physics/RigidBody.ts`): constructor, force and
  torque accumulation, the per-step integrator `fixedUpdate`;
* `PhysicsSystem` (`src/engine/physics/PhysicsSystem.ts`): the fixed-step
  accumulator loop, pairwise collision detection, collision resolution,
  ray casting;
* the ECS registry (`src/engine/ecs/Entity.ts`, `src/engine/ecs/World.ts`):
  `addComponent`, recursive `destroy`, `removeEntity` and the World getters.

Numbers are embedded as `ℚ`.  The code computes with IEEE doubles; every
claim here is about the exact arithmetic the algorithms denote, which is the
reading the specification itself uses.  `Math.sqrt` and the trigonometric
conversions (Euler angles to quaternions, axis-angle, lookAt) have no exact
rational counterpart, so the embedding is parametrised by oracles for those
functions; theorems either hold for every oracle or hypothesise only the
values of the oracle at the (perfect-square) points where a concrete run
needs them.  Where the JavaScript `while` loop of the physics accumulator
appears, it is realised by a fuel-indexed recursion together with a proof
that the chosen fuel is sufficient, so the embedded function agrees with
the loop whenever the loop terminates.

Functions are instrumented where a claim is about *events* rather than
values: `addComponent` reports which instances were constructed and which
received `onAttach`; `fixedUpdate` and `addForce` report whether a division
with zero denominator (division by `mass`) was executed; `destroy` reports
the set of entities it visited.
-/

namespace Bups

/-- Embedding of `THREE.Vector3` over exact rationals. -/
structure Vec3 where
  x : ℚ
  y : ℚ
  z : ℚ
deriving DecidableEq, Repr

namespace Vec3

/-- The zero vector (`new THREE.Vector3()`). -/
def zero : Vec3 := ⟨0, 0, 0⟩

/-- `Vector3.add`. -/
def add (a b : Vec3) : Vec3 := ⟨a.x + b.x, a.y + b.y, a.z + b.z⟩

/-- `Vector3.sub`. -/
def sub (a b : Vec3) : Vec3 := ⟨a.x - b.x, a.y - b.y, a.z - b.z⟩

/-- `Vector3.multiplyScalar`. -/
def scale (a : Vec3) (s : ℚ) : Vec3 := ⟨a.x * s, a.y * s, a.z * s⟩

/-- `Vector3.divideScalar` (multiplication by the reciprocal, as in THREE). -/
def divScalar (a : Vec3) (s : ℚ) : Vec3 := a.scale (1 / s)

/-- `Vector3.dot`. -/
def dot (a b : Vec3) : ℚ := a.x * b.x + a.y * b.y + a.z * b.z

/-- `Vector3.crossVectors`. -/
def cross (a b : Vec3) : Vec3 :=
  ⟨a.y * b.z - a.z * b.y, a.z * b.x - a.x * b.z, a.x * b.y - a.y * b.x⟩

/-- `Vector3.lengthSq`. -/
def lengthSq (a : Vec3) : ℚ := a.dot a

instance : Add Vec3 := ⟨add⟩
instance : Sub Vec3 := ⟨sub⟩

theorem add_def (a b : Vec3) : a + b = ⟨a.x + b.x, a.y + b.y, a.z + b.z⟩ := rfl

theorem sub_def (a b : Vec3) : a - b = ⟨a.x - b.x, a.y - b.y, a.z - b.z⟩ := rfl

end Vec3

/-- Embedding of `THREE.Quaternion` over exact rationals. -/
structure QuatQ where
  x : ℚ
  y : ℚ
  z : ℚ
  w : ℚ
deriving DecidableEq, Repr

namespace QuatQ

/-- The identity quaternion (`new THREE.Quaternion()`). -/
def id : QuatQ := ⟨0, 0, 0, 1⟩

/-- `Quaternion.multiplyQuaternions` (Hamilton product, as in THREE). -/
def mul (a b : QuatQ) : QuatQ :=
  ⟨a.x * b.w + a.w * b.x + a.y * b.z - a.z * b.y,
   a.y * b.w + a.w * b.y + a.z * b.x - a.x * b.z,
   a.z * b.w + a.w * b.z + a.x * b.y - a.y * b.x,
   a.w * b.w - a.x * b.x - a.y * b.y - a.z * b.z⟩

end QuatQ

/-- `Vector3.applyQuaternion`: `v + 2 w (q × v) + 2 q × (q × v)` written the
way THREE computes it (`t = 2 q × v; v + w t + q × t`). -/
def Vec3.applyQuaternion (v : Vec3) (q : QuatQ) : Vec3 :=
  let qv : Vec3 := ⟨q.x, q.y, q.z⟩
  let t := (qv.cross v).scale 2
  v + t.scale q.w + qv.cross t

/-- Embedding of `THREE.Matrix4`.  Field `mRC` is the entry at row `R`,
column `C` of the matrix in usual mathematical convention; THREE stores the
same matrix column-major in `elements`. -/
structure Mat4 where
  m00 : ℚ
  m01 : ℚ
  m02 : ℚ
  m03 : ℚ
  m10 : ℚ
  m11 : ℚ
  m12 : ℚ
  m13 : ℚ
  m20 : ℚ
  m21 : ℚ
  m22 : ℚ
  m23 : ℚ
  m30 : ℚ
  m31 : ℚ
  m32 : ℚ
  m33 : ℚ
deriving DecidableEq, Repr

namespace Mat4

/-- The identity matrix (`new THREE.Matrix4()`). -/
def idMat : Mat4 :=
  ⟨1, 0, 0, 0,
   0, 1, 0, 0,
   0, 0, 1, 0,
   0, 0, 0, 1⟩

/-- `Matrix4.multiplyMatrices a b` = the matrix product `a * b`. -/
def mul (a b : Mat4) : Mat4 where
  m00 := a.m00 * b.m00 + a.m01 * b.m10 + a.m02 * b.m20 + a.m03 * b.m30
  m01 := a.m00 * b.m01 + a.m01 * b.m11 + a.m02 * b.m21 + a.m03 * b.m31
  m02 := a.m00 * b.m02 + a.m01 * b.m12 + a.m02 * b.m22 + a.m03 * b.m32
  m03 := a.m00 * b.m03 + a.m01 * b.m13 + a.m02 * b.m23 + a.m03 * b.m33
  m10 := a.m10 * b.m00 + a.m11 * b.m10 + a.m12 * b.m20 + a.m13 * b.m30
  m11 := a.m10 * b.m01 + a.m11 * b.m11 + a.m12 * b.m21 + a.m13 * b.m31
  m12 := a.m10 * b.m02 + a.m11 * b.m12 + a.m12 * b.m22 + a.m13 * b.m32
  m13 := a.m10 * b.m03 + a.m11 * b.m13 + a.m12 * b.m23 + a.m13 * b.m33
  m20 := a.m20 * b.m00 + a.m21 * b.m10 + a.m22 * b.m20 + a.m23 * b.m30
  m21 := a.m20 * b.m01 + a.m21 * b.m11 + a.m22 * b.m21 + a.m23 * b.m31
  m22 := a.m20 * b.m02 + a.m21 * b.m12 + a.m22 * b.m22 + a.m23 * b.m32
  m23 := a.m20 * b.m03 + a.m21 * b.m13 + a.m22 * b.m23 + a.m23 * b.m33
  m30 := a.m30 * b.m00 + a.m31 * b.m10 + a.m32 * b.m20 + a.m33 * b.m30
  m31 := a.m30 * b.m01 + a.m31 * b.m11 + a.m32 * b.m21 + a.m33 * b.m31
  m32 := a.m30 * b.m02 + a.m31 * b.m12 + a.m32 * b.m22 + a.m33 * b.m32
  m33 := a.m30 * b.m03 + a.m31 * b.m13 + a.m32 * b.m23 + a.m33 * b.m33

end Mat4

/-- `Matrix4.compose(position, quaternion, scale)`, transcribed from the
THREE source (its column-major `elements` written back in row/column
convention). -/
def composeMat (p : Vec3) (q : QuatQ) (s : Vec3) : Mat4 :=
  let x2 := q.x + q.x
  let y2 := q.y + q.y
  let z2 := q.z + q.z
  let xx := q.x * x2
  let xy := q.x * y2
  let xz := q.x * z2
  let yy := q.y * y2
  let yz := q.y * z2
  let zz := q.z * z2
  let wx := q.w * x2
  let wy := q.w * y2
  let wz := q.w * z2
  { m00 := (1 - (yy + zz)) * s.x
    m10 := (xy + wz) * s.x
    m20 := (xz - wy) * s.x
    m30 := 0
    m01 := (xy - wz) * s.y
    m11 := (1 - (xx + zz)) * s.y
    m21 := (yz + wx) * s.y
    m31 := 0
    m02 := (xz + wy) * s.z
    m12 := (yz - wx) * s.z
    m22 := (1 - (xx + yy)) * s.z
    m32 := 0
    m03 := p.x
    m13 := p.y
    m23 := p.z
    m33 := 1 }

/-- Oracle for the transcendental conversions the Transform code delegates
to THREE (`Quaternion.setFromEuler`, `Euler.setFromQuaternion`,
`Quaternion.setFromAxisAngle`, `Matrix4.lookAt` + `setFromRotationMatrix`).
These involve sine/cosine/square roots and have no exact rational values;
the claims proved below hold for every oracle, so in particular for the
functions the code actually computes. -/
structure TrigOracle where
  eulerToQuat : Vec3 → QuatQ
  quatToEuler : QuatQ → Vec3
  axisAngleToQuat : Vec3 → ℚ → QuatQ
  lookAtQuat : Vec3 → Vec3 → Vec3 → QuatQ

/-- A trivial concrete oracle, used to instantiate witnesses. -/
def dummyOracle : TrigOracle where
  eulerToQuat := fun _ => QuatQ.id
  quatToEuler := fun _ => Vec3.zero
  axisAngleToQuat := fun _ _ => QuatQ.id
  lookAtQuat := fun _ _ _ => QuatQ.id

/-- Integer square root by bounded downward search; structurally recursive,
so concrete values reduce. -/
def isqrtAux (n : ℕ) : ℕ → ℕ
  | 0 => 0
  | k + 1 => if (k + 1) * (k + 1) ≤ n then k + 1 else isqrtAux n k

/-- Integer square root (largest `k ≤ n` with `k·k ≤ n`). -/
def isqrt (n : ℕ) : ℕ := isqrtAux n n

/-- Exact rational square root, defined (with value `0` elsewhere) only on
rationals whose numerator and denominator are perfect squares.  It serves as
the concrete `Math.sqrt` oracle in witnesses and counterexamples, all of
which evaluate the square root only at perfect squares, where this function
agrees exactly with `Math.sqrt`. -/
def ratSqrt (q : ℚ) : ℚ :=
  if q.num < 0 then 0
  else
    let n := q.num.toNat
    let d := q.den
    if isqrt n * isqrt n = n ∧ isqrt d * isqrt d = d then
      (isqrt n : ℚ) / (isqrt d : ℚ)
    else 0

/-- `Vector3.distanceTo` via a square-root oracle `sq`. -/
def vdist (sq : ℚ → ℚ) (a b : Vec3) : ℚ := sq ((b - a).lengthSq)

/-- `Vector3.normalize` via a square-root oracle: THREE divides by
`this.length() || 1`, so a zero length divides by `1`. -/
def vnormalize (sq : ℚ → ℚ) (v : Vec3) : Vec3 :=
  let l := sq v.lengthSq
  v.divScalar (if l = 0 then 1 else l)

end Bups

namespace Bups

/-- State of a `Transform` component (`src/engine/core/Transform.ts`):
`_position`, `_rotation` (Euler angles; the `_onChange` hook keeps
`_quaternion` synchronised with it), `_quaternion`, `_scale`, the cached
`_localMatrix`, and the `_matrixNeedsUpdate` dirty flag.  The `_worldMatrix`
field is not part of the observable state: `updateWorldMatrix` overwrites it
unconditionally on every read, so its stale value is never returned. -/
structure TransformState where
  position : Vec3
  euler : Vec3
  quaternion : QuatQ
  scale : Vec3
  localMatrix : Mat4
  dirty : Bool
deriving DecidableEq, Repr

namespace Transform

/-- A freshly constructed `Transform`: zero position and rotation, unit
scale, identity cached matrix, and `_matrixNeedsUpdate = true`. -/
def fresh : TransformState :=
  { position := Vec3.zero
    euler := Vec3.zero
    quaternion := QuatQ.id
    scale := ⟨1, 1, 1⟩
    localMatrix := Mat4.idMat
    dirty := true }

/-- `setPosition(x, y, z)`. -/
def setPosition (t : TransformState) (x y z : ℚ) : TransformState :=
  { t with position := ⟨x, y, z⟩, dirty := true }

/-- `setRotation(x, y, z)`: `Euler.set` fires the `_onChange` hook, which
recomputes the quaternion from the Euler angles. -/
def setRotation (o : TrigOracle) (t : TransformState) (x y z : ℚ) : TransformState :=
  { t with euler := ⟨x, y, z⟩, quaternion := o.eulerToQuat ⟨x, y, z⟩, dirty := true }

/-- `setRotationFromQuaternion(q)`. -/
def setRotationFromQuaternion (o : TrigOracle) (t : TransformState) (q : QuatQ) :
    TransformState :=
  { t with quaternion := q, euler := o.quatToEuler q, dirty := true }

/-- `setScale(x, y, z)`. -/
def setScale (t : TransformState) (x y z : ℚ) : TransformState :=
  { t with scale := ⟨x, y, z⟩, dirty := true }

/-- `translate(x, y, z)` — a world-space delta added to the position. -/
def translate (t : TransformState) (x y z : ℚ) : TransformState :=
  { t with position := t.position + ⟨x, y, z⟩, dirty := true }

/-- `translateLocal(x, y, z)` — the delta is rotated by the current
quaternion before being added. -/
def translateLocal (t : TransformState) (x y z : ℚ) : TransformState :=
  { t with position := t.position + Vec3.applyQuaternion ⟨x, y, z⟩ t.quaternion,
           dirty := true }

/-- `rotate(x, y, z)`: each Euler component is incremented; the `_onChange`
hook leaves the quaternion recomputed from the final Euler angles. -/
def rotate (o : TrigOracle) (t : TransformState) (x y z : ℚ) : TransformState :=
  { t with euler := t.euler + ⟨x, y, z⟩,
           quaternion := o.eulerToQuat (t.euler + ⟨x, y, z⟩),
           dirty := true }

/-- `rotateOnAxis(axis, angle)` — axis-angle quaternion premultiplied. -/
def rotateOnAxis (o : TrigOracle) (t : TransformState) (axis : Vec3) (angle : ℚ) :
    TransformState :=
  let q := QuatQ.mul (o.axisAngleToQuat axis angle) t.quaternion
  { t with quaternion := q, euler := o.quatToEuler q, dirty := true }

/-- `lookAt(target, up)`. -/
def lookAt (o : TrigOracle) (t : TransformState) (target upv : Vec3) : TransformState :=
  let q := o.lookAtQuat t.position target upv
  { t with quaternion := q, euler := o.quatToEuler q, dirty := true }

/-- The `position` property setter. -/
def positionSet (t : TransformState) (v : Vec3) : TransformState :=
  { t with position := v, dirty := true }

/-- The `rotation` property setter (`Euler.copy` fires `_onChange`). -/
def rotationSet (o : TrigOracle) (t : TransformState) (e : Vec3) : TransformState :=
  { t with euler := e, quaternion := o.eulerToQuat e, dirty := true }

/-- The `quaternion` property setter. -/
def quaternionSet (o : TrigOracle) (t : TransformState) (q : QuatQ) : TransformState :=
  { t with quaternion := q, euler := o.quatToEuler q, dirty := true }

/-- The `scale` property setter. -/
def scaleSet (t : TransformState) (v : Vec3) : TransformState :=
  { t with scale := v, dirty := true }

/-- `updateMatrix()`: recompute the cached local matrix and clear the dirty
flag. -/
def updateMatrix (t : TransformState) : TransformState :=
  { t with localMatrix := composeMat t.position t.quaternion t.scale, dirty := false }

/-- The `localMatrix` getter: recompute lazily if dirty, and return the
cache.  The pair is (value read, state after the read). -/
def localMatrixGet (t : TransformState) : Mat4 × TransformState :=
  if t.dirty then
    let t' := updateMatrix t
    (t'.localMatrix, t')
  else (t.localMatrix, t)

/-- The value returned by reading `worldMatrix`, for an entity whose chain
of ancestors carrying a Transform is `ancestors` (nearest parent first):
`updateWorldMatrix` recomputes the local matrix if dirty, then multiplies
the parent's (recursively read) world matrix by the local matrix, or copies
the local matrix when no parent Transform exists. -/
def worldMatrixVal : TransformState → List TransformState → Mat4
  | t, [] => (localMatrixGet t).1
  | t, p :: ps => Mat4.mul (worldMatrixVal p ps) (localMatrixGet t).1

end Transform

/-- One mutator call on a Transform, covering every mutator the class
exposes (the nine methods of §4.2 plus the four property setters). -/
inductive TOp where
  | setPosition (x y z : ℚ)
  | setRotation (x y z : ℚ)
  | setRotationFromQuaternion (q : QuatQ)
  | setScale (x y z : ℚ)
  | translate (x y z : ℚ)
  | translateLocal (x y z : ℚ)
  | rotate (x y z : ℚ)
  | rotateOnAxis (axis : Vec3) (angle : ℚ)
  | lookAt (target upv : Vec3)
  | positionSet (v : Vec3)
  | rotationSet (e : Vec3)
  | quaternionSet (q : QuatQ)
  | scaleSet (v : Vec3)
deriving Repr

/-- Apply one mutator. -/
def applyTOp (o : TrigOracle) (t : TransformState) : TOp → TransformState
  | .setPosition x y z => Transform.setPosition t x y z
  | .setRotation x y z => Transform.setRotation o t x y z
  | .setRotationFromQuaternion q => Transform.setRotationFromQuaternion o t q
  | .setScale x y z => Transform.setScale t x y z
  | .translate x y z => Transform.translate t x y z
  | .translateLocal x y z => Transform.translateLocal t x y z
  | .rotate x y z => Transform.rotate o t x y z
  | .rotateOnAxis a g => Transform.rotateOnAxis o t a g
  | .lookAt tg up => Transform.lookAt o t tg up
  | .positionSet v => Transform.positionSet t v
  | .rotationSet e => Transform.rotationSet o t e
  | .quaternionSet q => Transform.quaternionSet o t q
  | .scaleSet v => Transform.scaleSet t v

/-- An interaction with a Transform: a mutator call, or a matrix read
(whose only state effect is the lazy cache refresh). -/
inductive TAct where
  | mutate (op : TOp)
  | read
deriving Repr

/-- Apply one interaction. -/
def applyTAct (o : TrigOracle) (t : TransformState) : TAct → TransformState
  | .mutate op => applyTOp o t op
  | .read => (Transform.localMatrixGet t).2

/-- The state of a Transform after a sequence of interactions starting from
a freshly constructed one. -/
def reachT (o : TrigOracle) (acts : List TAct) : TransformState :=
  acts.foldl (applyTAct o) Transform.fresh

/-- Cache coherence: whenever the dirty flag is clear, the cached local
matrix is the composition of the current position, quaternion and scale. -/
def coherentT (t : TransformState) : Prop :=
  t.dirty = false → t.localMatrix = composeMat t.position t.quaternion t.scale

theorem applyTOp_dirty (o : TrigOracle) (t : TransformState) (op : TOp) :
    (applyTOp o t op).dirty = true := by
  cases op <;> rfl

theorem coherentT_applyTOp (o : TrigOracle) (t : TransformState) (op : TOp) :
    coherentT (applyTOp o t op) := by
  intro h
  rw [applyTOp_dirty] at h
  cases h

theorem coherentT_read (t : TransformState) (h : coherentT t) :
    coherentT (Transform.localMatrixGet t).2 := by
  unfold Transform.localMatrixGet
  split
  · intro _
    simp [Transform.updateMatrix]
  · exact h

theorem coherentT_applyTAct (o : TrigOracle) (t : TransformState) (h : coherentT t)
    (a : TAct) : coherentT (applyTAct o t a) := by
  cases a with
  | mutate op => exact coherentT_applyTOp o t op
  | read => exact coherentT_read t h

theorem coherentT_foldl (o : TrigOracle) (acts : List TAct) :
    ∀ t : TransformState, coherentT t → coherentT (acts.foldl (applyTAct o) t) := by
  induction acts with
  | nil => exact fun t h => h
  | cons a as ih => exact fun t h => ih _ (coherentT_applyTAct o t h a)

theorem coherentT_fresh : coherentT Transform.fresh := by
  intro h
  simp [Transform.fresh] at h

theorem coherentT_reachT (o : TrigOracle) (acts : List TAct) :
    coherentT (reachT o acts) :=
  coherentT_foldl o acts Transform.fresh coherentT_fresh

theorem localMatrixGet_val (t : TransformState) (h : coherentT t) :
    (Transform.localMatrixGet t).1 = composeMat t.position t.quaternion t.scale := by
  unfold Transform.localMatrixGet
  split
  · simp [Transform.updateMatrix]
  · next hd =>
    simp only [Bool.not_eq_true] at hd
    exact h hd

theorem localMatrixGet_preserves_fields (t : TransformState) :
    (Transform.localMatrixGet t).2.position = t.position ∧
    (Transform.localMatrixGet t).2.quaternion = t.quaternion ∧
    (Transform.localMatrixGet t).2.scale = t.scale ∧
    (Transform.localMatrixGet t).2.euler = t.euler := by
  unfold Transform.localMatrixGet
  split <;> simp [Transform.updateMatrix]

end Bups

namespace Bups

/-- `RigidBodyType` from `RigidBody.ts`. -/
inductive BodyType where
  | dynamic
  | static
  | kinematic
deriving DecidableEq, Repr

/-- `ColliderShape` from `RigidBody.ts`. -/
inductive ColliderShape where
  | box
  | sphere
  | capsule
  | mesh
deriving DecidableEq, Repr

/-- `ColliderConfig`: shape tag, optional dimensions, trigger flag, local
offset.  Optional fields model the `?` fields of the TS interface; use
sites read them with the same defaults the code applies
(`radius || 0.5`, `size || (1,1,1)`, `offset || (0,0,0)`). -/
structure ColliderConfig where
  shape : ColliderShape
  size : Option Vec3 := none
  radius : Option ℚ := none
  height : Option ℚ := none
  isTrigger : Bool := false
  offset : Option Vec3 := none
deriving DecidableEq, Repr

/-- The per-axis freeze constraints of a `RigidBody`. -/
structure Constraints where
  freezePositionX : Bool
  freezePositionY : Bool
  freezePositionZ : Bool
  freezeRotationX : Bool
  freezeRotationY : Bool
  freezeRotationZ : Bool
deriving DecidableEq, Repr

/-- All constraints off (the field initialiser in `RigidBody.ts`). -/
def Constraints.allOff : Constraints := ⟨false, false, false, false, false, false⟩

/-- State of a `RigidBody` component: public configuration, the private
physics state (`velocity`, `angularVelocity`, `forces`, `torques`), the
constraints, and the `enabled` flag inherited from `Component`. -/
structure RigidBodyState where
  bodyType : BodyType
  mass : ℚ
  drag : ℚ
  angularDrag : ℚ
  useGravity : Bool
  isKinematic : Bool
  freezeRotation : Bool
  freezePosition : Bool
  colliders : List ColliderConfig
  velocity : Vec3
  angularVelocity : Vec3
  forces : Vec3
  torques : Vec3
  constraints : Constraints
  enabled : Bool
deriving DecidableEq, Repr

namespace RigidBody

/-- The `RigidBody` constructor: field initialisers (`mass = 1`, `drag = 0`,
`angularDrag = 0.05`, `useGravity = true`, empty collider list, zero
velocity/forces, everything enabled), then, for a `static` body, `mass = 0`
and `useGravity = false`. -/
def init (ty : BodyType) : RigidBodyState :=
  let base : RigidBodyState :=
    { bodyType := ty
      mass := 1
      drag := 0
      angularDrag := 1 / 20
      useGravity := true
      isKinematic := false
      freezeRotation := false
      freezePosition := false
      colliders := []
      velocity := Vec3.zero
      angularVelocity := Vec3.zero
      forces := Vec3.zero
      torques := Vec3.zero
      constraints := Constraints.allOff
      enabled := true }
  match ty with
  | .static => { base with mass := 0, useGravity := false }
  | _ => base

/-- The force application modes of `addForce`. -/
inductive ForceMode where
  | force
  | impulse
  | acceleration
deriving DecidableEq, Repr

/-- Result of `addForce`, instrumented with whether a division whose
denominator was zero (division by `mass`) was executed. -/
structure AddForceResult where
  rb : RigidBodyState
  divByZeroMass : Bool
deriving Repr

/-- `addForce(force, mode)`: no-op for static bodies; `force` accumulates,
`impulse` divides by mass and adds to the velocity immediately,
`acceleration` multiplies by mass and accumulates. -/
def addForce (rb : RigidBodyState) (f : Vec3) (mode : ForceMode) : AddForceResult :=
  if rb.bodyType = .static then ⟨rb, false⟩
  else
    match mode with
    | .force => ⟨{ rb with forces := rb.forces + f }, false⟩
    | .impulse =>
        ⟨{ rb with velocity := rb.velocity + f.divScalar rb.mass }, decide (rb.mass = 0)⟩
    | .acceleration => ⟨{ rb with forces := rb.forces + f.scale rb.mass }, false⟩

/-- Result of the integrator, instrumented with whether a division by a
zero `mass` was executed. -/
structure FixedUpdateResult where
  rb : RigidBodyState
  transform : Option TransformState
  divByZeroMass : Bool
deriving Repr

/-- `RigidBody.fixedUpdate(fixedDeltaTime)`, the per-step integrator,
transcribed line by line: early exit for static or disabled bodies or a
missing Transform; gravity `(0, -9.81·mass, 0)` into the force accumulator;
`acceleration = forces / mass`; semi-implicit Euler velocity update; drag;
positional freeze constraints; translate unless `freezePosition`; the
angular block unless `freezeRotation`; clear both accumulators. -/
def fixedUpdate (o : TrigOracle) (rb : RigidBodyState) (tr? : Option TransformState)
    (dt : ℚ) : FixedUpdateResult :=
  if rb.bodyType = .static ∨ rb.enabled = false then ⟨rb, tr?, false⟩
  else
    match tr? with
    | none => ⟨rb, none, false⟩
    | some tr =>
      let forces1 :=
        if rb.useGravity then rb.forces + (⟨0, -(981 / 100) * rb.mass, 0⟩ : Vec3)
        else rb.forces
      let acceleration := forces1.divScalar rb.mass
      let v1 := rb.velocity + acceleration.scale dt
      let v2 := v1.scale (1 - rb.drag * dt)
      let v3 : Vec3 :=
        ⟨if rb.constraints.freezePositionX then 0 else v2.x,
         if rb.constraints.freezePositionY then 0 else v2.y,
         if rb.constraints.freezePositionZ then 0 else v2.z⟩
      let tr1 :=
        if rb.freezePosition then tr
        else Transform.translate tr (v3.x * dt) (v3.y * dt) (v3.z * dt)
      if rb.freezeRotation then
        ⟨{ rb with velocity := v3, forces := Vec3.zero, torques := Vec3.zero },
         some tr1, decide (rb.mass = 0)⟩
      else
        let av1 := rb.angularVelocity + rb.torques.scale dt
        let av2 := av1.scale (1 - rb.angularDrag * dt)
        let av3 : Vec3 :=
          ⟨if rb.constraints.freezeRotationX then 0 else av2.x,
           if rb.constraints.freezeRotationY then 0 else av2.y,
           if rb.constraints.freezeRotationZ then 0 else av2.z⟩
        let tr2 := Transform.rotate o tr1 (av3.x * dt) (av3.y * dt) (av3.z * dt)
        ⟨{ rb with velocity := v3, angularVelocity := av3,
                   forces := Vec3.zero, torques := Vec3.zero },
         some tr2, decide (rb.mass = 0)⟩

end RigidBody

/-- Iterated application of `RigidBody.fixedUpdate` to one body and its
(optional) Transform. -/
def iterFixed (o : TrigOracle) (dt : ℚ) :
    ℕ → RigidBodyState × Option TransformState → RigidBodyState × Option TransformState
  | 0, s => s
  | n + 1, s =>
      let r := RigidBody.fixedUpdate o s.1 s.2 dt
      iterFixed o dt n (r.rb, r.transform)

theorem fixedUpdate_static (o : TrigOracle) (rb : RigidBodyState)
    (tr? : Option TransformState) (dt : ℚ) (h : rb.bodyType = .static) :
    RigidBody.fixedUpdate o rb tr? dt = ⟨rb, tr?, false⟩ := by
  simp [RigidBody.fixedUpdate, h]

theorem iterFixed_static (o : TrigOracle) (dt : ℚ) (n : ℕ) (rb : RigidBodyState)
    (tr? : Option TransformState) (h : rb.bodyType = .static) :
    iterFixed o dt n (rb, tr?) = (rb, tr?) := by
  induction n with
  | zero => rfl
  | succ n ih =>
      simp only [iterFixed, fixedUpdate_static o rb tr? dt h]
      exact ih

end Bups

namespace Bups

/-- C9: for every entity with a Transform, reading `worldMatrix` yields the
parent's world matrix multiplied by this entity's local matrix when a parent
Transform exists, and the local matrix alone otherwise; the local matrix
always equals the composition of the current position, quaternion and
scale; every mutator sets the dirty flag; and the lazy recomputation behind
the dirty flag never changes the value read.  `reachT` ranges over every
state reachable from a fresh Transform by mutator calls and matrix reads,
and the statement holds for every trigonometry oracle, hence for the
functions the code computes. -/
theorem transform_worldMatrix_spec (o : TrigOracle) (acts pacts : List TAct)
    (ps : List TransformState) (op : TOp) :
    Transform.worldMatrixVal (reachT o acts) [] =
        composeMat (reachT o acts).position (reachT o acts).quaternion
          (reachT o acts).scale ∧
    Transform.worldMatrixVal (reachT o acts) (reachT o pacts :: ps) =
        Mat4.mul (Transform.worldMatrixVal (reachT o pacts) ps)
          (composeMat (reachT o acts).position (reachT o acts).quaternion
            (reachT o acts).scale) ∧
    (applyTOp o (reachT o acts) op).dirty = true ∧
    (Transform.localMatrixGet (reachT o acts)).1 =
        composeMat (reachT o acts).position (reachT o acts).quaternion
          (reachT o acts).scale := by
  have hcoh := coherentT_reachT o acts
  have hloc := localMatrixGet_val _ hcoh
  refine ⟨?_, ?_, applyTOp_dirty o _ op, hloc⟩
  · show (Transform.localMatrixGet _).1 = _
    exact hloc
  · show Mat4.mul _ (Transform.localMatrixGet _).1 = _
    rw [hloc]

/-- C1: for an enabled dynamic or kinematic body with nonzero mass whose
entity has a Transform, one `fixedUpdate(dt)` call performs exactly the
claimed sequence: gravity `(0,-9.81,0)·mass` into the force accumulator if
`useGravity`; `acceleration = forces/mass`; `velocity += acceleration·dt`;
`velocity *= (1 − drag·dt)`; zeroing of position-frozen velocity
components; a translation by `velocity·dt` unless `freezePosition`; the
angular update, drag, freeze and rotation by `angularVelocity·dt` unless
`freezeRotation`; and clearing of both accumulators.  (The final `false`
records that no division by a zero mass occurred.) -/
theorem rigidBody_fixedUpdate_sequence (o : TrigOracle) (rb : RigidBodyState)
    (tr : TransformState) (dt : ℚ) (hty : rb.bodyType ≠ .static)
    (hen : rb.enabled = true) (hm : rb.mass ≠ 0) :
    RigidBody.fixedUpdate o rb (some tr) dt =
      (let F := rb.forces +
          (if rb.useGravity then Vec3.scale ⟨0, -(981 / 100), 0⟩ rb.mass else Vec3.zero)
       let a : Vec3 := ⟨F.x / rb.mass, F.y / rb.mass, F.z / rb.mass⟩
       let v := (rb.velocity + a.scale dt).scale (1 - rb.drag * dt)
       let v' : Vec3 :=
         ⟨if rb.constraints.freezePositionX then 0 else v.x,
          if rb.constraints.freezePositionY then 0 else v.y,
          if rb.constraints.freezePositionZ then 0 else v.z⟩
       let t1 := if rb.freezePosition then tr
                 else Transform.translate tr (v'.x * dt) (v'.y * dt) (v'.z * dt)
       let av := (rb.angularVelocity + rb.torques.scale dt).scale
                   (1 - rb.angularDrag * dt)
       let av' : Vec3 :=
         ⟨if rb.constraints.freezeRotationX then 0 else av.x,
          if rb.constraints.freezeRotationY then 0 else av.y,
          if rb.constraints.freezeRotationZ then 0 else av.z⟩
       ⟨{ rb with velocity := v',
                  angularVelocity := if rb.freezeRotation then rb.angularVelocity else av',
                  forces := Vec3.zero, torques := Vec3.zero },
        some (if rb.freezeRotation then t1
              else Transform.rotate o t1 (av'.x * dt) (av'.y * dt) (av'.z * dt)),
        false⟩) := by
  cases hug : rb.useGravity <;> cases hfr : rb.freezeRotation <;>
    simp [RigidBody.fixedUpdate, hen, hty, hug, hfr, decide_eq_false hm,
      Vec3.add_def, Vec3.zero, Vec3.scale, Vec3.divScalar, div_eq_mul_inv]

/-- C3: a `RigidBody` constructed with body type `static` has `mass = 0` by
construction and zero initial velocity and angular velocity; the integrator
bypasses static bodies entirely, so across any number of `fixedUpdate`
calls the velocity and angular velocity remain the zero vector and the
Transform is never changed — and more generally any static body passes
through `fixedUpdate` unchanged. -/
theorem rigidBody_static_inert (o : TrigOracle) (dt : ℚ) (n : ℕ)
    (tr? : Option TransformState) :
    (RigidBody.init .static).mass = 0 ∧
    (iterFixed o dt n (RigidBody.init .static, tr?)).1.velocity = Vec3.zero ∧
    (iterFixed o dt n (RigidBody.init .static, tr?)).1.angularVelocity = Vec3.zero ∧
    (iterFixed o dt n (RigidBody.init .static, tr?)).2 = tr? ∧
    (∀ rb : RigidBodyState, rb.bodyType = .static →
      iterFixed o dt n (rb, tr?) = (rb, tr?)) := by
  have hstat : (RigidBody.init .static).bodyType = .static := by
    simp [RigidBody.init]
  have hiter := iterFixed_static o dt n (RigidBody.init .static) tr? hstat
  refine ⟨by simp [RigidBody.init], ?_, ?_, ?_, fun rb h => iterFixed_static o dt n rb tr? h⟩
  · rw [hiter]; simp [RigidBody.init]
  · rw [hiter]; simp [RigidBody.init]
  · rw [hiter]

end Bups

namespace Bups

/-- Witness for C1 at a concrete input: a freshly constructed dynamic body
satisfies the hypotheses, and by the theorem no division by a zero mass
occurs in its step. -/
theorem rigidBody_fixedUpdate_sequence_witness :
    (RigidBody.init .dynamic).bodyType ≠ BodyType.static ∧
    (RigidBody.init .dynamic).enabled = true ∧
    (RigidBody.init .dynamic).mass ≠ 0 ∧
    (RigidBody.fixedUpdate dummyOracle (RigidBody.init .dynamic)
        (some Transform.fresh) 1).divByZeroMass = false := by
  refine ⟨by decide, by decide, by decide, ?_⟩
  rw [rigidBody_fixedUpdate_sequence dummyOracle (RigidBody.init .dynamic)
        Transform.fresh 1 (by decide) (by decide) (by decide)]

/-- The `{point, normal, depth}` record produced by `checkCollision`. -/
structure Contact where
  point : Vec3
  normal : Vec3
  depth : ℚ
deriving DecidableEq, Repr

/-- The `CollisionInfo` record passed to collision callbacks. -/
structure CollisionInfo where
  entityA : ℕ
  entityB : ℕ
  point : Vec3
  normal : Vec3
  depth : ℚ
deriving DecidableEq, Repr

/-- An entity as `PhysicsSystem` sees it: it comes from
`getEntitiesWithComponents(RigidBody, Transform)`, so both components are
present. -/
structure PEntity where
  id : ℕ
  transform : TransformState
  rigidBody : RigidBodyState
deriving DecidableEq, Repr

/-- `PhysicsSystem.checkCollision`, transcribed: sphere–sphere,
box–box (AABB), sphere–box narrow phases, anything else detects nothing.
`sq` is the `Math.sqrt` oracle (used by `distanceTo` and `normalize`). -/
def checkCollision (sq : ℚ → ℚ) (tA : TransformState) (cA : ColliderConfig)
    (tB : TransformState) (cB : ColliderConfig) : Option Contact :=
  let posA := tA.position + cA.offset.getD Vec3.zero
  let posB := tB.position + cB.offset.getD Vec3.zero
  if cA.shape = .sphere ∧ cB.shape = .sphere then
    let radiusA := cA.radius.getD (1 / 2)
    let radiusB := cB.radius.getD (1 / 2)
    let distance := vdist sq posA posB
    let minDistance := radiusA + radiusB
    if distance < minDistance then
      let normal := vnormalize sq (posB - posA)
      some ⟨posA + normal.scale radiusA, normal, minDistance - distance⟩
    else none
  else if cA.shape = .box ∧ cB.shape = .box then
    let halfA := (cA.size.getD ⟨1, 1, 1⟩).scale (1 / 2)
    let halfB := (cB.size.getD ⟨1, 1, 1⟩).scale (1 / 2)
    let minA := posA - halfA
    let maxA := posA + halfA
    let minB := posB - halfB
    let maxB := posB + halfB
    if minA.x ≤ maxB.x ∧ maxA.x ≥ minB.x ∧ minA.y ≤ maxB.y ∧ maxA.y ≥ minB.y ∧
        minA.z ≤ maxB.z ∧ maxA.z ≥ minB.z then
      let overlapX := min (maxA.x - minB.x) (maxB.x - minA.x)
      let overlapY := min (maxA.y - minB.y) (maxB.y - minA.y)
      let overlapZ := min (maxA.z - minB.z) (maxB.z - minA.z)
      let nd : Vec3 × ℚ :=
        if overlapX < overlapY ∧ overlapX < overlapZ then
          (⟨if posA.x < posB.x then -1 else 1, 0, 0⟩, overlapX)
        else if overlapY < overlapZ then
          (⟨0, if posA.y < posB.y then -1 else 1, 0⟩, overlapY)
        else (⟨0, 0, if posA.z < posB.z then -1 else 1⟩, overlapZ)
      some ⟨(posA + posB).scale (1 / 2), nd.1, nd.2⟩
    else none
  else if (cA.shape = .sphere ∧ cB.shape = .box) ∨
      (cA.shape = .box ∧ cB.shape = .sphere) then
    let sp : Vec3 × ColliderConfig × Vec3 × ColliderConfig :=
      if cA.shape = .sphere then (posA, cA, posB, cB) else (posB, cB, posA, cA)
    let spherePos := sp.1
    let radius := sp.2.1.radius.getD (1 / 2)
    let boxPos := sp.2.2.1
    let half := (sp.2.2.2.size.getD ⟨1, 1, 1⟩).scale (1 / 2)
    let closest : Vec3 :=
      ⟨max (boxPos.x - half.x) (min spherePos.x (boxPos.x + half.x)),
       max (boxPos.y - half.y) (min spherePos.y (boxPos.y + half.y)),
       max (boxPos.z - half.z) (min spherePos.z (boxPos.z + half.z))⟩
    let distance := vdist sq spherePos closest
    if distance < radius then
      some ⟨closest, vnormalize sq (spherePos - closest), radius - distance⟩
    else none
  else none

/-- The body of `resolveCollision` after its early-return checks:
positional correction by mass share, then the impulse block with its
relative-velocity test (`if velocityAlongNormal > 0 return`) and
restitution 0.3. -/
def applyResolution (a b : PEntity) (col : Contact) : PEntity × PEntity :=
  let rbA := a.rigidBody
  let rbB := b.rigidBody
  let isAStatic := rbA.bodyType = .static
  let isBStatic := rbB.bodyType = .static
  let totalMass := (if isAStatic then 0 else rbA.mass) + (if isBStatic then 0 else rbB.mass)
  let ratioA : ℚ := if isBStatic then 1 else if isAStatic then 0 else rbB.mass / totalMass
  let ratioB : ℚ := if isAStatic then 1 else if isBStatic then 0 else rbA.mass / totalMass
  let separation := col.normal.scale col.depth
  let taNew := Transform.translate a.transform (-separation.x * ratioA)
    (-separation.y * ratioA) (-separation.z * ratioA)
  let tbNew := Transform.translate b.transform (separation.x * ratioB)
    (separation.y * ratioB) (separation.z * ratioB)
  let a1 := if isAStatic then a else { a with transform := taNew }
  let b1 := if isBStatic then b else { b with transform := tbNew }
  let restitution : ℚ := 3 / 10
  let relativeVelocity := rbA.velocity - rbB.velocity
  let velocityAlongNormal := relativeVelocity.dot col.normal
  if velocityAlongNormal > 0 then (a1, b1)
  else
    let j := -(1 + restitution) * velocityAlongNormal / totalMass
    let impulse := col.normal.scale j
    let a2 := if isAStatic then a1 else
      { a1 with rigidBody :=
          { a1.rigidBody with velocity := a1.rigidBody.velocity + impulse.scale (1 / rbA.mass) } }
    let b2 := if isBStatic then b1 else
      { b1 with rigidBody :=
          { b1.rigidBody with velocity := b1.rigidBody.velocity - impulse.scale (1 / rbB.mass) } }
    (a2, b2)

/-- `PhysicsSystem.resolveCollision`: skip when any collider of either
participant is a trigger (`colliders.some(c => c.isTrigger)`), skip when
both bodies are static, otherwise run the resolution body. -/
def resolveCollision (a b : PEntity) (col : Contact) : PEntity × PEntity :=
  if a.rigidBody.colliders.any (·.isTrigger) ∨ b.rigidBody.colliders.any (·.isTrigger) then
    (a, b)
  else if a.rigidBody.bodyType = .static ∧ b.rigidBody.bodyType = .static then (a, b)
  else applyResolution a b col

/-- State threaded through `detectCollisions`: the (mutated) entity array
and the list of `CollisionInfo` values delivered to the registered
callbacks, in delivery order. -/
structure DetectResult where
  entities : List PEntity
  infos : List CollisionInfo
deriving DecidableEq, Repr

/-- One iteration of the nested pair loop of `detectCollisions`: skip if
either entity has no colliders; narrow-phase on the *first* collider of
each; on collision, resolve and then notify every callback. -/
def processPair (sq : ℚ → ℚ) (st : DetectResult) (ij : ℕ × ℕ) : DetectResult :=
  match st.entities.get? ij.1, st.entities.get? ij.2 with
  | some ea, some eb =>
    match ea.rigidBody.colliders.head?, eb.rigidBody.colliders.head? with
    | some ca, some cb =>
      match checkCollision sq ea.transform ca eb.transform cb with
      | some col =>
          let r := resolveCollision ea eb col
          { entities := (st.entities.set ij.1 r.1).set ij.2 r.2,
            infos := st.infos ++ [⟨ea.id, eb.id, col.point, col.normal, col.depth⟩] }
      | none => st
    | _, _ => st
  | _, _ => st

/-- The `(i, j)` pairs with `i < j` in the order the nested loops visit
them. -/
def pairIndices (n : ℕ) : List (ℕ × ℕ) :=
  (List.range n).flatMap fun i =>
    ((List.range n).filter fun j => i < j).map fun j => (i, j)

/-- `PhysicsSystem.detectCollisions` over the entity list. -/
def detectCollisions (sq : ℚ → ℚ) (es : List PEntity) : DetectResult :=
  (pairIndices es.length).foldl (processPair sq) ⟨es, []⟩

end Bups

namespace Bups

/-- A raycast hit without the entity id (the `Omit<RaycastHit, 'entity'>`
that `raycastCollider` returns). -/
structure RayHit where
  point : Vec3
  normal : Vec3
  distance : ℚ
deriving DecidableEq, Repr

/-- A `RaycastHit`. -/
structure RaycastHit where
  entity : ℕ
  point : Vec3
  normal : Vec3
  distance : ℚ
deriving DecidableEq, Repr

/-- Result of `raycastCollider`, instrumented with the argument passed to
`Math.sqrt` for the discriminant, if that square root was evaluated. -/
structure RayColliderResult where
  hit : Option RayHit
  sqrtDiscArg : Option ℚ
deriving DecidableEq, Repr

/-- `PhysicsSystem.raycastCollider`: ray–sphere quadratic; the square root
of the discriminant is taken only inside the `discriminant >= 0` branch,
and only the root `(-b - sqrt(disc)) / (2a)` is examined; box raycasting is
unimplemented (`return null`). -/
def raycastCollider (sq : ℚ → ℚ) (origin direction : Vec3) (t : TransformState)
    (c : ColliderConfig) (maxDistance : ℚ) : RayColliderResult :=
  let pos := t.position + c.offset.getD Vec3.zero
  if c.shape = .sphere then
    let radius := c.radius.getD (1 / 2)
    let oc := origin - pos
    let a := direction.dot direction
    let b := 2 * oc.dot direction
    let cq := oc.dot oc - radius * radius
    let disc := b * b - 4 * a * cq
    if disc ≥ 0 then
      let tHit := (-b - sq disc) / (2 * a)
      if 0 ≤ tHit ∧ tHit ≤ maxDistance then
        let point := origin + direction.scale tHit
        ⟨some ⟨point, vnormalize sq (point - pos), tHit⟩, some disc⟩
      else ⟨none, some disc⟩
    else ⟨none, none⟩
  else ⟨none, none⟩

/-- The closest-hit accumulator of `raycast`
(`if hit && (!closestHit || hit.distance < closestHit.distance)`). -/
def closer (closest : Option RaycastHit) (h : RaycastHit) : Option RaycastHit :=
  match closest with
  | none => some h
  | some ch => if h.distance < ch.distance then some h else some ch

/-- `PhysicsSystem.raycast`: fold over every collider of every entity that
has both components, keeping the globally nearest hit. -/
def raycast (sq : ℚ → ℚ) (es : List PEntity) (origin direction : Vec3)
    (maxDistance : ℚ) : Option RaycastHit :=
  es.foldl
    (fun closest e =>
      e.rigidBody.colliders.foldl
        (fun closest c =>
          match (raycastCollider sq origin direction e.transform c maxDistance).hit with
          | some h => closer closest ⟨e.id, h.point, h.normal, h.distance⟩
          | none => closest)
        closest)
    none

/-- The list of individual collider hits the raycast loop examines, in
visit order. -/
def rayCandidates (sq : ℚ → ℚ) (es : List PEntity) (origin direction : Vec3)
    (maxDistance : ℚ) : List RaycastHit :=
  es.flatMap fun e =>
    e.rigidBody.colliders.filterMap fun c =>
      ((raycastCollider sq origin direction e.transform c maxDistance).hit).map
        fun h => ⟨e.id, h.point, h.normal, h.distance⟩

/-- The fixed-timestep accumulator loop of `PhysicsSystem.update`, with
explicit fuel: while `acc ≥ step`, run one fixed step and subtract `step`;
returns the final accumulator and the number of `fixedUpdate` calls. -/
def stepLoop (step : ℚ) : ℕ → ℚ → ℚ × ℕ
  | 0, acc => (acc, 0)
  | fuel + 1, acc =>
      if step ≤ acc then
        let r := stepLoop step fuel (acc - step)
        (r.1, r.2 + 1)
      else (acc, 0)

/-- Fuel sufficient for the loop to run to completion from `acc + dt`
(proved sufficient in `stepLoop_spec`). -/
def updateFuel (step acc dt : ℚ) : ℕ := (⌊(acc + dt) / step⌋).toNat + 1

/-- `PhysicsSystem.update(deltaTime)`: `accumulator += deltaTime`, then the
while loop.  Input and output are the accumulator value; the second
component counts the `fixedUpdate(fixedTimeStep)` calls made. -/
def PhysicsSystem.update (step acc dt : ℚ) : ℚ × ℕ :=
  stepLoop step (updateFuel step acc dt) (acc + dt)

/-- A sequence of frames: fold `update` over the list of frame deltas
starting from accumulator `0`, totalling the `fixedUpdate` calls. -/
def runUpdates (step : ℚ) (ds : List ℚ) : ℚ × ℕ :=
  ds.foldl (fun st d =>
    let r := PhysicsSystem.update step st.1 d
    (r.1, st.2 + r.2)) (0, 0)

theorem stepLoop_spec (step : ℚ) (hs : 0 < step) :
    ∀ (fuel : ℕ) (acc : ℚ), 0 ≤ acc → (⌊acc / step⌋).toNat ≤ fuel →
      stepLoop step fuel acc = (acc - (⌊acc / step⌋ : ℚ) * step, (⌊acc / step⌋).toNat) := by
  intro fuel
  induction fuel with
  | zero =>
      intro acc hacc hfuel
      have h0 : ⌊acc / step⌋ = 0 := by
        have hnn : 0 ≤ ⌊acc / step⌋ := Int.floor_nonneg.mpr (div_nonneg hacc hs.le)
        omega
      simp [stepLoop, h0]
  | succ fuel ih =>
      intro acc hacc hfuel
      by_cases hge : step ≤ acc
      · have h1 : (1 : ℚ) ≤ acc / step := (le_div_iff₀ hs).mpr (by linarith)
        have hf1 : 1 ≤ ⌊acc / step⌋ := by exact_mod_cast Int.le_floor.mpr (by exact_mod_cast h1)
        have hsub : (acc - step) / step = acc / step - 1 := by
          field_simp
        have hfl : ⌊(acc - step) / step⌋ = ⌊acc / step⌋ - 1 := by
          rw [hsub]
          exact_mod_cast Int.floor_sub_one (acc / step)
        have hrec := ih (acc - step) (by linarith)
          (by rw [hfl]; omega)
        simp only [stepLoop, if_pos hge, hrec, hfl, Prod.mk.injEq]
        constructor
        · push_cast
          ring
        · omega
      · have h0 : ⌊acc / step⌋ = 0 := by
          have hnn : 0 ≤ ⌊acc / step⌋ := Int.floor_nonneg.mpr (div_nonneg hacc hs.le)
          have hlt : acc / step < 1 := (div_lt_one hs).mpr (by linarith)
          have : ⌊acc / step⌋ < 1 := by
            exact_mod_cast lt_of_le_of_lt (Int.floor_le (acc / step)) hlt
          omega
        simp [stepLoop, hge, h0]

theorem update_spec (step acc dt : ℚ) (hs : 0 < step) (h : 0 ≤ acc + dt) :
    PhysicsSystem.update step acc dt =
      (acc + dt - (⌊(acc + dt) / step⌋ : ℚ) * step, (⌊(acc + dt) / step⌋).toNat) :=
  stepLoop_spec step hs (updateFuel step acc dt) (acc + dt) h (by unfold updateFuel; omega)

end Bups

namespace Bups

theorem runUpdates_aux (step : ℚ) (hs : 0 < step) :
    ∀ (ds : List ℚ) (acc : ℚ) (n : ℕ), 0 ≤ acc → acc < step →
      (∀ d ∈ ds, 0 ≤ d) →
      ds.foldl (fun st d =>
          let r := PhysicsSystem.update step st.1 d
          (r.1, st.2 + r.2)) (acc, n) =
        (acc + ds.sum - (⌊(acc + ds.sum) / step⌋ : ℚ) * step,
         n + (⌊(acc + ds.sum) / step⌋).toNat) := by
  intro ds
  induction ds with
  | nil =>
      intro acc n h0 hlt _
      have hfl : ⌊acc / step⌋ = 0 := by
        have hnn : 0 ≤ ⌊acc / step⌋ := Int.floor_nonneg.mpr (div_nonneg h0 hs.le)
        have hub : acc / step < 1 := (div_lt_one hs).mpr hlt
        have : ⌊acc / step⌋ < 1 := by
          exact_mod_cast lt_of_le_of_lt (Int.floor_le (acc / step)) hub
        omega
      simp [hfl]
  | cons d ds ih =>
      intro acc n h0 hlt hnng
      have hd0 : 0 ≤ d := hnng d (List.mem_cons_self d ds)
      have hrest : ∀ x ∈ ds, 0 ≤ x := fun x hx => hnng x (List.mem_cons_of_mem d hx)
      have hA : 0 ≤ acc + d := by linarith
      have hupd := update_spec step acc d hs hA
      have hA'0 : 0 ≤ acc + d - (⌊(acc + d) / step⌋ : ℚ) * step :=
        Int.sub_floor_div_mul_nonneg (acc + d) hs
      have hA'lt : acc + d - (⌊(acc + d) / step⌋ : ℚ) * step < step :=
        Int.sub_floor_div_mul_lt (acc + d) hs
      have hrec := ih (acc + d - (⌊(acc + d) / step⌋ : ℚ) * step)
        (n + (⌊(acc + d) / step⌋).toNat) hA'0 hA'lt hrest
      simp only [List.foldl_cons, hupd]
      rw [hrec]
      have hsum : 0 ≤ ds.sum := List.sum_nonneg hrest
      have hAA : acc + d - (⌊(acc + d) / step⌋ : ℚ) * step + ds.sum =
          acc + (d + ds.sum) - (⌊(acc + d) / step⌋ : ℚ) * step := by ring
      have hdivshift : (acc + (d + ds.sum) - (⌊(acc + d) / step⌋ : ℚ) * step) / step =
          (acc + (d + ds.sum)) / step - (⌊(acc + d) / step⌋ : ℚ) := by
        field_simp [mul_comm]
      have hflshift : ⌊(acc + (d + ds.sum) - (⌊(acc + d) / step⌋ : ℚ) * step) / step⌋ =
          ⌊(acc + (d + ds.sum)) / step⌋ - ⌊(acc + d) / step⌋ := by
        rw [hdivshift, Int.floor_sub_int]
      have hmono : ⌊(acc + d) / step⌋ ≤ ⌊(acc + (d + ds.sum)) / step⌋ := by
        apply Int.floor_le_floor
        gcongr
        linarith
      have hmA0 : 0 ≤ ⌊(acc + d) / step⌋ := Int.floor_nonneg.mpr (div_nonneg hA hs.le)
      simp only [List.sum_cons, Prod.mk.injEq]
      rw [hAA, hflshift]
      constructor
      · push_cast
        ring
      · omega

end Bups

namespace Bups

/-- C2: `update(dt)` adds `dt` to the accumulator then runs
`fixedUpdate(fixedTimeStep)` and subtracts `fixedTimeStep` while the
accumulator is at least `fixedTimeStep`.  Consequently, in exact arithmetic
from accumulator `0`, any sequence of non-negative deltas summing to `T`
produces exactly the same number of `fixedUpdate` calls as the single call
`update(T)` (so certainly within ±1), that number is `⌊T/step⌋`, the total
simulated time advanced is `⌊T/step⌋·step`, and the leftover accumulator is
`T − ⌊T/step⌋·step`. -/
theorem physicsSystem_update_accumulator (step : ℚ) (ds : List ℚ) (hs : 0 < step)
    (hd : ∀ d ∈ ds, 0 ≤ d) :
    (runUpdates step ds).2 = (runUpdates step [ds.sum]).2 ∧
    (runUpdates step ds).2 = (⌊ds.sum / step⌋).toNat ∧
    ((runUpdates step ds).2 : ℚ) * step = (⌊ds.sum / step⌋ : ℚ) * step ∧
    (runUpdates step ds).1 = ds.sum - (⌊ds.sum / step⌋ : ℚ) * step := by
  have hsum : 0 ≤ ds.sum := List.sum_nonneg hd
  have h1 := runUpdates_aux step hs ds 0 0 le_rfl hs hd
  have h2 := runUpdates_aux step hs [ds.sum] 0 0 le_rfl hs (by
    intro x hx
    simp only [List.mem_singleton] at hx
    simpa [hx] using hsum)
  have hfn : 0 ≤ ⌊ds.sum / step⌋ := Int.floor_nonneg.mpr (div_nonneg hsum hs.le)
  have hcast : ((⌊ds.sum / step⌋.toNat : ℕ) : ℚ) = ((⌊ds.sum / step⌋ : ℤ) : ℚ) := by
    exact_mod_cast congrArg (fun z : ℤ => (z : ℚ)) (Int.toNat_of_nonneg hfn)
  unfold runUpdates
  rw [h1, h2]
  simp [hcast]

/-- Witness for C2 at a concrete input: step `1/60`, two frames of `1/50`
seconds each; the theorem applies and gives `⌊(2/50)/(1/60)⌋ = 2` steps. -/
theorem physicsSystem_update_accumulator_witness :
    0 < (1 / 60 : ℚ) ∧
    (runUpdates (1 / 60) [1 / 50, 1 / 50]).2 =
      (⌊([1 / 50, 1 / 50] : List ℚ).sum / (1 / 60)⌋).toNat :=
  ⟨by norm_num,
   (physicsSystem_update_accumulator (1 / 60) [1 / 50, 1 / 50] (by norm_num)
      (by
        intro d hd
        simp only [List.mem_cons, List.not_mem_nil, or_false] at hd
        rcases hd with h | h <;> rw [h] <;> norm_num)).2.1⟩

end Bups

namespace Bups

theorem inner_fold (sq : ℚ → ℚ) (o d : Vec3) (m : ℚ) (t : TransformState) (eid : ℕ) :
    ∀ (cs : List ColliderConfig) (acc : Option RaycastHit),
      cs.foldl (fun closest c =>
          match (raycastCollider sq o d t c m).hit with
          | some h => closer closest ⟨eid, h.point, h.normal, h.distance⟩
          | none => closest) acc =
        (cs.filterMap fun c =>
          ((raycastCollider sq o d t c m).hit).map
            fun h => (⟨eid, h.point, h.normal, h.distance⟩ : RaycastHit)).foldl closer acc := by
  intro cs
  induction cs with
  | nil => intro acc; rfl
  | cons c cs ih =>
      intro acc
      simp only [List.foldl_cons, List.filterMap_cons]
      cases hh : (raycastCollider sq o d t c m).hit with
      | none => exact ih acc
      | some h =>
          simp only [Option.map_some', List.foldl_cons]
          exact ih _

theorem raycast_eq_fold_aux (sq : ℚ → ℚ) (o d : Vec3) (m : ℚ) :
    ∀ (es : List PEntity) (acc : Option RaycastHit),
      es.foldl (fun closest e =>
        e.rigidBody.colliders.foldl (fun closest c =>
          match (raycastCollider sq o d e.transform c m).hit with
          | some h => closer closest ⟨e.id, h.point, h.normal, h.distance⟩
          | none => closest) closest) acc =
      (rayCandidates sq es o d m).foldl closer acc := by
  intro es
  induction es with
  | nil => intro acc; rfl
  | cons e es ih =>
      intro acc
      simp only [List.foldl_cons, rayCandidates]
      show _ = ((_ ++ _ : List RaycastHit).foldl closer acc)
      rw [List.foldl_append, inner_fold]
      exact ih _

theorem raycast_eq_fold (sq : ℚ → ℚ) (es : List PEntity) (o d : Vec3) (m : ℚ) :
    raycast sq es o d m = (rayCandidates sq es o d m).foldl closer none :=
  raycast_eq_fold_aux sq o d m es none

theorem closer_cases (oa : Option RaycastHit) (x : RaycastHit) :
    ∃ a', closer oa x = some a' ∧ (a' = x ∨ oa = some a') ∧ a'.distance ≤ x.distance ∧
      (∀ b, oa = some b → a'.distance ≤ b.distance) := by
  cases oa with
  | none => exact ⟨x, rfl, Or.inl rfl, le_rfl, by simp⟩
  | some ch =>
      by_cases hlt : x.distance < ch.distance
      · exact ⟨x, by simp [closer, hlt], Or.inl rfl, le_rfl,
          fun b hb => by cases hb; exact hlt.le⟩
      · exact ⟨ch, by simp [closer, hlt], Or.inr rfl, le_of_not_lt hlt,
          fun b hb => by cases hb; exact le_rfl⟩

theorem foldl_closer_min : ∀ (l : List RaycastHit) (acc : Option RaycastHit) (h : RaycastHit),
    l.foldl closer acc = some h →
      (h ∈ l ∨ acc = some h) ∧
      (∀ h' ∈ l, h.distance ≤ h'.distance) ∧
      (∀ a, acc = some a → h.distance ≤ a.distance) := by
  intro l
  induction l with
  | nil =>
      intro acc h hf
      simp only [List.foldl_nil] at hf
      exact ⟨Or.inr hf, by simp, fun a ha => by rw [hf] at ha; cases ha; exact le_rfl⟩
  | cons x xs ih =>
      intro acc h hf
      simp only [List.foldl_cons] at hf
      obtain ⟨hmem, hmin, hacc⟩ := ih (closer acc x) h hf
      obtain ⟨a', hca', hwhere, ha'x, ha'acc⟩ := closer_cases acc x
      have hha' : h.distance ≤ a'.distance := hacc a' hca'
      refine ⟨?_, ?_, ?_⟩
      · rcases hmem with hx | hch
        · exact Or.inl (List.mem_cons_of_mem x hx)
        · have hah : a' = h := by rw [hca'] at hch; exact Option.some.inj hch
          rcases hwhere with hax | hsome
          · have hxh : h = x := by rw [← hah]; exact hax
            exact Or.inl (by rw [hxh]; exact List.mem_cons_self x xs)
          · rw [hah] at hsome
            exact Or.inr hsome
      · intro h' hh'
        rcases List.mem_cons.mp hh' with rfl | hh'
        · exact hha'.trans ha'x
        · exact hmin h' hh'
      · intro a ha
        exact hha'.trans (ha'acc a ha)

theorem foldl_closer_none : ∀ (l : List RaycastHit) (acc : Option RaycastHit),
    l.foldl closer acc = none → l = [] ∧ acc = none := by
  intro l
  induction l with
  | nil => intro acc h; exact ⟨rfl, h⟩
  | cons x xs ih =>
      intro acc h
      simp only [List.foldl_cons] at h
      obtain ⟨a', hca', _⟩ := closer_cases acc x
      obtain ⟨hnil, hacc⟩ := ih (closer acc x) h
      rw [hca'] at hacc
      cases hacc

end Bups

namespace Bups

/-- `raycastCollider` on a sphere of radius `r` centred at the origin, for
the ray from `(0,0,-10)` with direction `(0,0,1)`: the discriminant is
`4r²`, the returned distance `10 − r`, the hit point `(0,0,-r)` and the
normal `(0,0,-1)`, pointing from the sphere centre to the hit point. -/
theorem raycastCollider_sphere_head_on (sq : ℚ → ℚ) (r : ℚ) (hr0 : 0 < r) (hr10 : r < 10)
    (hsq1 : sq (4 * (r * r)) = 2 * r) (hsq2 : sq (r * r) = r) :
    raycastCollider sq ⟨0, 0, -10⟩ ⟨0, 0, 1⟩ Transform.fresh
      { shape := .sphere, radius := some r } 100 =
      ⟨some ⟨⟨0, 0, -r⟩, ⟨0, 0, -1⟩, 10 - r⟩, some (4 * (r * r))⟩ := by
  unfold raycastCollider
  norm_num [Vec3.sub_def, Vec3.add_def, Vec3.dot, Vec3.zero, Transform.fresh, Option.getD]
  have e1 : (400 : ℚ) - 4 * (100 - r * r) = 4 * (r * r) := by ring
  rw [e1, hsq1]
  rw [if_pos (show (4 : ℚ) * (100 - r * r) ≤ 400 by nlinarith [mul_self_nonneg r])]
  have e2 : (20 - 2 * r) / 2 = 10 - r := by ring
  rw [e2]
  rw [if_pos ⟨by linarith, by linarith⟩]
  simp only [Vec3.scale]
  norm_num
  constructor
  · ring
  · unfold vnormalize
    have e4 : (⟨0, 0, -10 + (10 - r)⟩ : Vec3) = ⟨0, 0, -r⟩ := by
      simp only [Vec3.mk.injEq, true_and]
      ring
    rw [e4]
    have e3 : Vec3.lengthSq ⟨0, 0, -r⟩ = r * r := by
      simp [Vec3.lengthSq, Vec3.dot]
    rw [e3, hsq2]
    simp only [hr0.ne', if_false, ite_false]
    simp [Vec3.divScalar, Vec3.scale]
    field_simp

/-- C4 amended: `raycast` returns the globally nearest collider hit over
all entities (or none exactly when no collider reports a hit), where a
sphere is hit only at the root `(-b − √disc)/(2a)` of the ray–sphere
quadratic, provided that root is non-negative and at most `maxDistance` —
the far root is never examined, so a ray starting inside the sphere misses;
and the `(0,0,-10)`-ray scenario reports distance `10 − r` with the normal
pointing from the sphere centre to the hit point. -/
theorem physicsSystem_raycast_nearest (sq : ℚ → ℚ) (es : List PEntity) (o d : Vec3)
    (m r : ℚ) (eid : ℕ) (hr0 : 0 < r) (hr10 : r < 10)
    (hsq1 : sq (4 * (r * r)) = 2 * r) (hsq2 : sq (r * r) = r) :
    (∀ h, raycast sq es o d m = some h →
        h ∈ rayCandidates sq es o d m ∧
        ∀ h' ∈ rayCandidates sq es o d m, h.distance ≤ h'.distance) ∧
    (raycast sq es o d m = none → rayCandidates sq es o d m = []) ∧
    raycast sq
        [⟨eid, Transform.fresh,
          { RigidBody.init .dynamic with
              colliders := [{ shape := .sphere, radius := some r }] }⟩]
        ⟨0, 0, -10⟩ ⟨0, 0, 1⟩ 100 =
      some ⟨eid, ⟨0, 0, -r⟩, ⟨0, 0, -1⟩, 10 - r⟩ := by
  refine ⟨?_, ?_, ?_⟩
  · intro h hh
    rw [raycast_eq_fold] at hh
    obtain ⟨hmem, hmin, _⟩ := foldl_closer_min _ none h hh
    rcases hmem with hm | hnone
    · exact ⟨hm, hmin⟩
    · cases hnone
  · intro hn
    rw [raycast_eq_fold] at hn
    exact (foldl_closer_none _ none hn).1
  · simp [raycast, RigidBody.init,
      raycastCollider_sphere_head_on sq r hr0 hr10 hsq1 hsq2, closer]

/-- Witness for C4's amended theorem at `r = 1` with the exact square-root
oracle. -/
theorem physicsSystem_raycast_nearest_witness :
    0 < (1 : ℚ) ∧ (1 : ℚ) < 10 ∧ ratSqrt (4 * (1 * 1)) = 2 * 1 ∧ ratSqrt (1 * 1) = 1 ∧
    raycast ratSqrt
        [⟨0, Transform.fresh,
          { RigidBody.init .dynamic with
              colliders := [{ shape := .sphere, radius := some 1 }] }⟩]
        ⟨0, 0, -10⟩ ⟨0, 0, 1⟩ 100 =
      some ⟨0, ⟨0, 0, -1⟩, ⟨0, 0, -1⟩, 10 - 1⟩ := by
  have hq1 : ratSqrt (4 * (1 * 1)) = 2 * 1 := by
    norm_num [ratSqrt, show Int.toNat 4 = 4 from by decide,
      show isqrt 4 = 2 from by decide, show isqrt 1 = 1 from by decide]
  have hq2 : ratSqrt ((1 : ℚ) * 1) = 1 := by
    norm_num [ratSqrt, show Int.toNat 1 = 1 from by decide,
      show isqrt 1 = 1 from by decide]
  exact ⟨by norm_num, by norm_num, hq1, hq2,
    (physicsSystem_raycast_nearest ratSqrt [] Vec3.zero Vec3.zero 0 1 0
      (by norm_num) (by norm_num) hq1 hq2).2.2⟩

/-- C4 counterexample: a ray starting at the centre of a unit sphere (the
origin lies inside the collider) returns *no* hit, although the claim says
such a ray still hits at the positive far root (here `t = 1 ≤
maxDistance`): the code only evaluates `(-b − √disc)/(2a) = −1` and
discards it as negative. -/
theorem physicsSystem_raycast_inside_sphere_misses :
    raycast ratSqrt
        [⟨0, Transform.fresh,
          { RigidBody.init .dynamic with
              colliders := [{ shape := .sphere, radius := some 1 }] }⟩]
        ⟨0, 0, 0⟩ ⟨0, 0, 1⟩ 100 = none := by
  norm_num [raycast, raycastCollider, RigidBody.init, Transform.fresh, Option.getD,
    Vec3.sub_def, Vec3.add_def, Vec3.dot, Vec3.zero, ratSqrt,
    show Int.toNat 4 = 4 from by decide, show isqrt 4 = 2 from by decide,
    show isqrt 1 = 1 from by decide]

end Bups

namespace Bups

/-- A non-trigger sphere collider of radius `0.5`. -/
def sphereHalf : ColliderConfig := { shape := .sphere, radius := some (1 / 2) }

/-- A trigger sphere collider of radius `0.5`. -/
def sphereHalfTrigger : ColliderConfig :=
  { shape := .sphere, radius := some (1 / 2), isTrigger := true }

/-- The contact `checkCollision` produces for the two concrete sphere
entities below: point `(0.5,0,0)`, normal `(1,0,0)` (pointing from A to B),
depth `0.2`. -/
def contact15 : Contact := ⟨⟨1 / 2, 0, 0⟩, ⟨1, 0, 0⟩, 1 / 5⟩

theorem checkCollision_spheres_concrete :
    checkCollision ratSqrt Transform.fresh sphereHalf
      { Transform.fresh with position := ⟨4 / 5, 0, 0⟩ } sphereHalf = some contact15 := by
  norm_num [checkCollision, vdist, vnormalize, contact15, sphereHalf, Transform.fresh,
    Option.getD, Vec3.sub_def, Vec3.add_def, Vec3.dot, Vec3.lengthSq, Vec3.zero,
    Vec3.scale, Vec3.divScalar, ratSqrt,
    show Int.toNat 16 = 16 from by decide, show isqrt 16 = 4 from by decide,
    show isqrt 25 = 5 from by decide]

/-- Entity A of the head-on scenario: dynamic, unit mass, sphere collider of
radius `0.5`, at the origin, moving right at speed 1. -/
def entA : PEntity :=
  ⟨0, Transform.fresh,
   { RigidBody.init .dynamic with colliders := [sphereHalf], velocity := ⟨1, 0, 0⟩ }⟩

/-- Entity B of the head-on scenario: dynamic, unit mass, sphere collider of
radius `0.5`, at `(0.8,0,0)`, moving left at speed 1 — A and B approach
head-on and overlap by `0.2`. -/
def entB : PEntity :=
  ⟨1, { Transform.fresh with position := ⟨4 / 5, 0, 0⟩ },
   { RigidBody.init .dynamic with colliders := [sphereHalf], velocity := ⟨-1, 0, 0⟩ }⟩

/-- C5: evidence of the sign inversion in the velocity response.  For two
dynamic unit-mass bodies approaching head-on (detection normal `(1,0,0)`
pointing from A to B, relative velocity `vA − vB` along the normal `= 2 >
0`), `resolveCollision` takes its `velocityAlongNormal > 0` early return —
whose own comment reads "Objects moving apart" — and leaves both velocities
unchanged, whereas the claim (and §8 of the spec) requires the impulse to
fire exactly for approaching bodies and reverse the equal-mass velocities.
The code's test is inverted: with `relativeVelocity = vA − vB` and the
normal pointing from A toward B, approaching bodies satisfy
`velocityAlongNormal > 0`, not `< 0`. -/
theorem physicsSystem_velocity_response_inverted :
    checkCollision ratSqrt entA.transform sphereHalf entB.transform sphereHalf =
      some contact15 ∧
    0 < (entA.rigidBody.velocity - entB.rigidBody.velocity).dot contact15.normal ∧
    (resolveCollision entA entB contact15).1.rigidBody.velocity = ⟨1, 0, 0⟩ ∧
    (resolveCollision entA entB contact15).2.rigidBody.velocity = ⟨-1, 0, 0⟩ := by
  refine ⟨checkCollision_spheres_concrete,
    by norm_num [entA, entB, contact15, RigidBody.init, Vec3.sub_def, Vec3.dot], ?_, ?_⟩ <;>
    norm_num [resolveCollision, applyResolution, entA, entB, contact15, sphereHalf,
      RigidBody.init, Vec3.sub_def, Vec3.dot,
      show BodyType.dynamic ≠ BodyType.static from by decide]

/-- Entity A of the trigger scenario for C6: its *first* collider is not a
trigger, its second is; the body is dynamic and moving. -/
def entATrig : PEntity :=
  ⟨0, Transform.fresh,
   { RigidBody.init .dynamic with colliders := [sphereHalf, sphereHalfTrigger],
                                  velocity := ⟨1, 0, 0⟩ }⟩

/-- C6 counterexample: the first collider of each participant is *not* a
trigger and the bodies are not both static, so by the claim resolution must
run (the positional correction would translate A by
`−normal·depth·ratioA ≠ 0`); but because A's *second* collider is a
trigger, `colliders.some(c => c.isTrigger)` is true and the code skips
resolution entirely, returning both entities unchanged. -/
theorem physicsSystem_trigger_first_collider_counterexample :
    entATrig.rigidBody.colliders.head? = some sphereHalf ∧
    sphereHalf.isTrigger = false ∧
    entB.rigidBody.colliders.head? = some sphereHalf ∧
    entATrig.rigidBody.bodyType = .dynamic ∧
    entB.rigidBody.bodyType = .dynamic ∧
    contact15.depth ≠ 0 ∧ contact15.normal ≠ Vec3.zero ∧
    resolveCollision entATrig entB contact15 = (entATrig, entB) := by
  refine ⟨rfl, rfl, rfl, rfl, rfl, by norm_num [contact15], ?_, ?_⟩
  · norm_num [contact15, Vec3.zero]
  · norm_num [resolveCollision, entATrig, entB, sphereHalf, sphereHalfTrigger,
      RigidBody.init]

/-- C6 amended: resolution is skipped exactly when *any* collider of either
participant is a trigger (`colliders.some`, not only the first collider) or
both bodies are static — in those cases neither participant's position or
velocity changes (the pair is returned untouched) — and otherwise the
resolution body runs; independently, for every detected collision the pair
loop appends the `CollisionInfo` (entity ids, contact point, normal, depth)
delivered to every registered callback, regardless of triggers. -/
theorem physicsSystem_trigger_skip_semantics (a b : PEntity) (col : Contact)
    (sq : ℚ → ℚ) (st : DetectResult) (i j : ℕ) (ca cb : ColliderConfig) :
    (a.rigidBody.colliders.any (fun c => c.isTrigger) = true ∨
        b.rigidBody.colliders.any (fun c => c.isTrigger) = true →
      resolveCollision a b col = (a, b)) ∧
    (a.rigidBody.bodyType = .static ∧ b.rigidBody.bodyType = .static →
      resolveCollision a b col = (a, b)) ∧
    (a.rigidBody.colliders.any (fun c => c.isTrigger) = false →
      b.rigidBody.colliders.any (fun c => c.isTrigger) = false →
      ¬(a.rigidBody.bodyType = .static ∧ b.rigidBody.bodyType = .static) →
      resolveCollision a b col = applyResolution a b col) ∧
    (st.entities.get? i = some a → st.entities.get? j = some b →
      a.rigidBody.colliders.head? = some ca → b.rigidBody.colliders.head? = some cb →
      checkCollision sq a.transform ca b.transform cb = some col →
      (processPair sq st (i, j)).infos =
        st.infos ++ [⟨a.id, b.id, col.point, col.normal, col.depth⟩]) := by
  refine ⟨?_, ?_, ?_, ?_⟩
  · intro h
    rcases h with h | h <;> simp [resolveCollision, h]
  · intro h
    by_cases ht : a.rigidBody.colliders.any (fun c => c.isTrigger) = true ∨
        b.rigidBody.colliders.any (fun c => c.isTrigger) = true
    · rcases ht with ht | ht <;> simp [resolveCollision, ht]
    · push_neg at ht
      simp [resolveCollision, ht.1, ht.2, h.1, h.2]
  · intro h1 h2 h3
    simp [resolveCollision, h1, h2, h3]
  · intro hi hj hca hcb hcol
    have hi' : st.entities[i]? = some a := by rw [← List.get?_eq_getElem?]; exact hi
    have hj' : st.entities[j]? = some b := by rw [← List.get?_eq_getElem?]; exact hj
    simp [processPair, hi', hj', hca, hcb, hcol]

/-- Witness for C6's amended theorem: the trigger pair is skipped untouched
and the callback info for the detected contact is still appended. -/
theorem physicsSystem_trigger_skip_semantics_witness :
    resolveCollision entATrig entB contact15 = (entATrig, entB) ∧
    (processPair ratSqrt ⟨[entATrig, entB], []⟩ (0, 1)).infos =
      [] ++ [⟨0, 1, contact15.point, contact15.normal, contact15.depth⟩] := by
  have h := physicsSystem_trigger_skip_semantics entATrig entB contact15 ratSqrt
    ⟨[entATrig, entB], []⟩ 0 1 sphereHalf sphereHalf
  exact ⟨h.1 (Or.inl rfl), h.2.2.2 rfl rfl rfl rfl checkCollision_spheres_concrete⟩

end Bups

namespace Bups

/-- C7 amended: of the simulation core's numerical hazards, only the
raycast discriminant is guarded by a branch check — `Math.sqrt` of the
discriminant is evaluated only under `discriminant >= 0`, so its recorded
argument is always non-negative.  The divisions by `mass` (the
`forces/mass` of `fixedUpdate` and the impulse mode of `addForce`) are
guarded only by the static-body early return: static bodies never reach
them, but that check does not ensure a nonzero mass — every enabled
non-static body with `mass = 0` executes both divisions with a zero
denominator. -/
theorem numericalGuards_status (sq : ℚ → ℚ) (o : TrigOracle) :
    (∀ origin direction t c maxD d,
       (raycastCollider sq origin direction t c maxD).sqrtDiscArg = some d → 0 ≤ d) ∧
    (∀ rb f mode, rb.bodyType = .static → RigidBody.addForce rb f mode = ⟨rb, false⟩) ∧
    (∀ rb tr? dt, rb.bodyType = .static →
       (RigidBody.fixedUpdate o rb tr? dt).divByZeroMass = false) ∧
    (∀ (rb : RigidBodyState) (tr : TransformState) (dt : ℚ),
       rb.bodyType ≠ .static → rb.enabled = true → rb.mass = 0 →
       (RigidBody.fixedUpdate o rb (some tr) dt).divByZeroMass = true ∧
       (RigidBody.addForce rb ⟨1, 0, 0⟩ .impulse).divByZeroMass = true) := by
  refine ⟨?_, ?_, ?_, ?_⟩
  · intro origin direction t c maxD d h
    simp only [raycastCollider] at h
    split at h
    · split at h
      · next hge =>
          split at h <;> (simp only [Option.some.injEq] at h; subst h; exact hge)
      · simp at h
    · simp at h
  · intro rb f mode h
    cases mode <;> simp [RigidBody.addForce, h]
  · intro rb tr? dt h
    simp [RigidBody.fixedUpdate, h]
  · intro rb tr dt hty hen hm
    constructor
    · by_cases hfr : rb.freezeRotation = true <;>
        simp [RigidBody.fixedUpdate, hty, hen, hfr, hm]
    · simp [RigidBody.addForce, hty, hm]

/-- Witness for C7's amended theorem at concrete inputs: the recorded
discriminant of a concrete sphere raycast is non-negative; a static body's
`addForce` is a no-op with no division; and a zero-mass dynamic body
executes both divisions by zero. -/
theorem numericalGuards_status_witness :
    (0 : ℚ) ≤ 4 ∧
    RigidBody.addForce (RigidBody.init .static) ⟨1, 0, 0⟩ .impulse =
      ⟨RigidBody.init .static, false⟩ ∧
    (RigidBody.fixedUpdate dummyOracle { RigidBody.init .dynamic with mass := 0 }
        (some Transform.fresh) 1).divByZeroMass = true ∧
    (RigidBody.addForce { RigidBody.init .dynamic with mass := 0 }
        ⟨1, 0, 0⟩ .impulse).divByZeroMass = true := by
  have hdisc : (raycastCollider ratSqrt ⟨0, 0, 0⟩ ⟨0, 0, 1⟩ Transform.fresh
      { shape := .sphere, radius := some 1 } 100).sqrtDiscArg = some 4 := by
    norm_num [raycastCollider, Transform.fresh, Option.getD, Vec3.sub_def,
      Vec3.add_def, Vec3.dot, Vec3.zero, ratSqrt,
      show Int.toNat 4 = 4 from by decide, show isqrt 4 = 2 from by decide,
      show isqrt 1 = 1 from by decide]
  have h := numericalGuards_status ratSqrt dummyOracle
  refine ⟨h.1 ⟨0, 0, 0⟩ ⟨0, 0, 1⟩ Transform.fresh _ 100 4 hdisc,
    h.2.1 _ ⟨1, 0, 0⟩ .impulse rfl, ?_, ?_⟩
  · exact (h.2.2.2 { RigidBody.init .dynamic with mass := 0 } Transform.fresh 1
      (by decide) rfl rfl).1
  · exact (h.2.2.2 { RigidBody.init .dynamic with mass := 0 } Transform.fresh 1
      (by decide) rfl rfl).2

/-- C7 counterexample: the claim says every division by mass is guarded by
a branch check before the division is performed; but an enabled dynamic
body with `mass = 0` (reachable — `mass` is a public field and
`deserialize` restores arbitrary masses) passes the only guard (the
static-body early return) and executes both `forces/mass` in `fixedUpdate`
and the impulse-mode division in `addForce` with a zero denominator. -/
theorem numericalGuards_zero_mass_division_counterexample :
    ({ RigidBody.init .dynamic with mass := 0 } : RigidBodyState).bodyType ≠ .static ∧
    ({ RigidBody.init .dynamic with mass := 0 } : RigidBodyState).enabled = true ∧
    (RigidBody.fixedUpdate dummyOracle { RigidBody.init .dynamic with mass := 0 }
        (some Transform.fresh) 1).divByZeroMass = true ∧
    (RigidBody.addForce { RigidBody.init .dynamic with mass := 0 }
        ⟨1, 0, 0⟩ .impulse).divByZeroMass = true := by
  refine ⟨by decide, rfl, ?_, ?_⟩ <;>
    norm_num [RigidBody.fixedUpdate, RigidBody.addForce, RigidBody.init,
      show BodyType.dynamic ≠ BodyType.static from by decide]

end Bups

namespace Bups

/-- Result of `Entity.addComponent`, instrumented with lifecycle events.
Component instances are identified by numeric ids; the entity's component
registry is the type-name-keyed insertion-ordered map
(`Map<string, Component>`).  `constructed` lists the instances built by
`new ComponentType(...)` during the call, `attached` those that received
`onAttach`.  The function is total — no path throws. -/
structure AddComponentResult where
  components : List (String × ℕ)
  returned : ℕ
  constructed : List ℕ
  attached : List ℕ
  warned : Bool
deriving DecidableEq, Repr

/-- `Entity.addComponent`: the constructor runs first (producing instance
`newId`); on a duplicate type the code warns and returns the existing
instance, leaving the map untouched and calling no `onAttach`; otherwise it
inserts the new instance and calls `onAttach` on it once. -/
def Entity.addComponent (components : List (String × ℕ)) (typeName : String)
    (newId : ℕ) : AddComponentResult :=
  match components.lookup typeName with
  | some existing => ⟨components, existing, [newId], [], true⟩
  | none => ⟨components ++ [(typeName, newId)], newId, [newId], [newId], false⟩

/-- C8: `addComponent` constructs exactly one instance and calls `onAttach`
on it exactly once when the type is not yet present, inserting it into the
map and returning it; on a duplicate attach it warns, leaves the component
map unchanged, calls no `onAttach`, returns the already-attached instance,
and (being total) never throws. -/
theorem entity_addComponent_contract (m : List (String × ℕ)) (ty : String)
    (newId : ℕ) :
    (m.lookup ty = none →
      (Entity.addComponent m ty newId).constructed = [newId] ∧
      (Entity.addComponent m ty newId).attached = [newId] ∧
      (Entity.addComponent m ty newId).returned = newId ∧
      (Entity.addComponent m ty newId).components = m ++ [(ty, newId)] ∧
      (Entity.addComponent m ty newId).warned = false) ∧
    (∀ ex, m.lookup ty = some ex →
      (Entity.addComponent m ty newId).warned = true ∧
      (Entity.addComponent m ty newId).components = m ∧
      (Entity.addComponent m ty newId).attached = [] ∧
      (Entity.addComponent m ty newId).constructed = [newId] ∧
      (Entity.addComponent m ty newId).returned = ex) := by
  constructor
  · intro h
    simp [Entity.addComponent, h]
  · intro ex h
    simp [Entity.addComponent, h]

/-- Witness for C8: a fresh attach constructs and attaches instance 7; a
duplicate attach returns the existing instance 5 and leaves the map
unchanged. -/
theorem entity_addComponent_contract_witness :
    (Entity.addComponent [] "Transform" 7).attached = [7] ∧
    (Entity.addComponent [("Transform", 5)] "Transform" 7).returned = 5 ∧
    (Entity.addComponent [("Transform", 5)] "Transform" 7).components =
      [("Transform", 5)] :=
  ⟨((entity_addComponent_contract [] "Transform" 7).1 rfl).2.1,
   ((entity_addComponent_contract [("Transform", 5)] "Transform" 7).2 5 rfl).2.2.2.2,
   ((entity_addComponent_contract [("Transform", 5)] "Transform" 7).2 5 rfl).2.1⟩

end Bups

namespace Bups

/-- Mutable per-entity state (`Entity`): display name, `active` flag,
parent and children links (by entity id, mirroring the JS object
references), attached component type names, and tags. -/
structure EntityData where
  ename : String
  active : Bool
  parent : Option ℕ
  children : List ℕ
  components : List String
  tags : List String
deriving DecidableEq, Repr

/-- The heap of live entity objects, keyed by id.  Entity objects exist
independently of the World's `entities` map; the map merely holds
references into this heap. -/
abbrev Heap := List (ℕ × EntityData)

/-- Point update of the object with id `i` (JS mutation through a
reference): every entry keeps its key; only the value at `i` changes. -/
def hmodify (h : Heap) (i : ℕ) (f : EntityData → EntityData) : Heap :=
  (h : List (ℕ × EntityData)).map fun p => if p.1 = i then (p.1, f p.2) else p

/-- Heap lookup. -/
def hlookup (h : Heap) (i : ℕ) : Option EntityData :=
  (h : List (ℕ × EntityData)).lookup i

/-- `Entity.removeChild`: if the child is in the parent's children array,
splice it out and null the child's parent pointer; otherwise do nothing. -/
def removeChild (h : Heap) (parentId childId : ℕ) : Heap :=
  match hlookup h parentId with
  | none => h
  | some pd =>
      if childId ∈ pd.children then
        let h1 := hmodify h parentId fun d => { d with children := d.children.erase childId }
        hmodify h1 childId fun d => { d with parent := none }
      else h

/-- `Entity.destroy`, fuel-indexed (the fuel bounds the recursion depth of
the JS call; the returned flag is `true` iff the fuel was never
exhausted, i.e. the embedded run performed exactly the work the JS run
performs).  Processes a work list: for each id, destroy its children first
(snapshot of the current children array), then clear the component map
(after `onDetach` on each component, a state no-op here), then unlink from
the parent, then set `active := false`.  The returned list collects every
entity the run destroyed. -/
def destroyStep : ℕ → Heap → List ℕ → Heap × List ℕ × Bool
  | 0, h, _ => (h, [], false)
  | _ + 1, h, [] => (h, [], true)
  | fuel + 1, h, i :: rest =>
      match hlookup h i with
      | none =>
          let r := destroyStep fuel h rest
          (r.1, r.2.1, r.2.2)
      | some d =>
          let rc := destroyStep fuel h d.children
          let h1 := hmodify rc.1 i fun e => { e with components := [] }
          let h2 :=
            match (hlookup h1 i).bind (fun e => e.parent) with
            | some p => removeChild h1 p i
            | none => h1
          let h3 := hmodify h2 i fun e => { e with active := false }
          let rr := destroyStep fuel h3 rest
          (rr.1, rc.2.1 ++ [i] ++ rr.2.1, rc.2.2 && rr.2.2)

/-- State of a `World`: the heap of entity objects, the id keys of the
`entities` map (insertion order), the `rootEntities` array, and the
`entitiesByTag` index (tag to ids). -/
structure WorldState where
  heap : Heap
  entityIds : List ℕ
  rootEntities : List ℕ
  tagIndex : List (String × List ℕ)

/-- `World.unindexEntityTag`: remove the entity from the tag's set, if the
tag is indexed. -/
def unindexTag (ti : List (String × List ℕ)) (tag : String) (i : ℕ) :
    List (String × List ℕ) :=
  ti.map fun p => if p.1 = tag then (p.1, p.2.erase i) else p

/-- `World.removeEntity(entity)`: destroy the entity (recursively), delete
only its own id from the entities map, splice it out of `rootEntities`, and
unindex its tags (read from the object, which destruction leaves in
place).  Also returns the destroyed set and the fuel-sufficiency flag. -/
def World.removeEntity (fuel : ℕ) (w : WorldState) (i : ℕ) :
    WorldState × List ℕ × Bool :=
  let r := destroyStep fuel w.heap [i]
  let tags := match hlookup r.1 i with
    | some d => d.tags
    | none => []
  (⟨r.1, w.entityIds.erase i, w.rootEntities.erase i,
     tags.foldl (fun ti tag => unindexTag ti tag i) w.tagIndex⟩,
   r.2.1, r.2.2)

/-- `World.getEntity(id)`. -/
def World.getEntity (w : WorldState) (i : ℕ) : Option EntityData :=
  if i ∈ w.entityIds then hlookup w.heap i else none

/-- `World.getEntities()`: the values of the entities map filtered by the
`active` flag. -/
def World.getEntities (w : WorldState) : List (ℕ × EntityData) :=
  (w.entityIds.filterMap fun i => (hlookup w.heap i).map fun d => (i, d)).filter
    fun p => p.2.active

/-- `World.getRootEntities()`: the root array filtered by `active`. -/
def World.getRootEntities (w : WorldState) : List ℕ :=
  w.rootEntities.filter fun i =>
    match hlookup w.heap i with
    | some d => d.active
    | none => false

/-- `World.getEntitiesWithTag(tag)`: the tag's set filtered by `active`. -/
def World.getEntitiesWithTag (w : WorldState) (tag : String) : List ℕ :=
  match w.tagIndex.lookup tag with
  | none => []
  | some s =>
      s.filter fun i =>
        match hlookup w.heap i with
        | some d => d.active
        | none => false

/-- The entity count reported by `World.getStats()` (`entities.size`). -/
def World.statsEntities (w : WorldState) : ℕ := w.entityIds.length

end Bups

namespace Bups

theorem lookup_cons_eq (k : ℕ) (v : EntityData) (t : List (ℕ × EntityData)) :
    List.lookup k ((k, v) :: t) = some v := by
  simp [List.lookup]

theorem lookup_cons_ne (j k : ℕ) (v : EntityData) (t : List (ℕ × EntityData))
    (h : j ≠ k) : List.lookup j ((k, v) :: t) = List.lookup j t := by
  have hb : (j == k) = false := by simp [h]
  simp [List.lookup, hb]

theorem hlookup_hmodify (h : Heap) (i : ℕ) (f : EntityData → EntityData) (j : ℕ) :
    hlookup (hmodify h i f) j =
      if j = i then (hlookup h j).map f else hlookup h j := by
  induction h with
  | nil =>
      simp only [hmodify, List.map_nil, hlookup, List.lookup]
      split <;> rfl
  | cons p t ih =>
      obtain ⟨k, v⟩ := p
      simp only [hmodify, List.map_cons, hlookup] at *
      by_cases hjk : j = k
      · subst hjk
        by_cases hji : j = i
        · rw [if_pos hji, if_pos hji, lookup_cons_eq, lookup_cons_eq, Option.map_some']
        · rw [if_neg hji, if_neg hji, lookup_cons_eq, lookup_cons_eq]
      · by_cases hki : k = i
        · rw [if_pos hki, lookup_cons_ne j k (f v) _ hjk, lookup_cons_ne j k v t hjk]
          exact ih
        · rw [if_neg hki, lookup_cons_ne j k v _ hjk, lookup_cons_ne j k v t hjk]
          exact ih

end Bups

namespace Bups

/-- An entity that has been destroyed in heap `h`: present, inactive, with
its component map cleared. -/
def deadAt (h : Heap) (d : ℕ) : Prop :=
  ∃ dd, hlookup h d = some dd ∧ dd.active = false ∧ dd.components = []

theorem isSome_hmodify (h : Heap) (i : ℕ) (f : EntityData → EntityData) (j : ℕ) :
    (hlookup (hmodify h i f) j).isSome = (hlookup h j).isSome := by
  rw [hlookup_hmodify]
  split
  · cases hlookup h j <;> rfl
  · rfl

theorem tags_hmodify (h : Heap) (i : ℕ) (f : EntityData → EntityData) (j : ℕ)
    (hf : ∀ e, (f e).tags = e.tags) :
    (hlookup (hmodify h i f) j).map (fun e => e.tags) =
      (hlookup h j).map (fun e => e.tags) := by
  rw [hlookup_hmodify]
  split
  · cases hlookup h j <;> simp [hf]
  · rfl

theorem deadAt_hmodify (h : Heap) (i : ℕ) (f : EntityData → EntityData) (j : ℕ)
    (hfa : ∀ e, e.active = false → (f e).active = false)
    (hfc : ∀ e, e.components = [] → (f e).components = [])
    (hd : deadAt h j) : deadAt (hmodify h i f) j := by
  obtain ⟨dd, hl, ha, hc⟩ := hd
  unfold deadAt
  rw [hlookup_hmodify]
  split
  · exact ⟨f dd, by rw [hl]; rfl, hfa dd ha, hfc dd hc⟩
  · exact ⟨dd, hl, ha, hc⟩

theorem isSome_removeChild (h : Heap) (p c j : ℕ) :
    (hlookup (removeChild h p c) j).isSome = (hlookup h j).isSome := by
  unfold removeChild
  split
  · rfl
  · split
    · rw [isSome_hmodify, isSome_hmodify]
    · rfl

theorem tags_removeChild (h : Heap) (p c j : ℕ) :
    (hlookup (removeChild h p c) j).map (fun e => e.tags) =
      (hlookup h j).map (fun e => e.tags) := by
  unfold removeChild
  split
  · rfl
  · split
    · exact (tags_hmodify (hmodify h p fun d => { d with children := d.children.erase c })
          c (fun d => { d with parent := none }) j fun e => rfl).trans
        (tags_hmodify h p (fun d => { d with children := d.children.erase c }) j
          fun e => rfl)
    · rfl

theorem deadAt_removeChild (h : Heap) (p c j : ℕ) (hd : deadAt h j) :
    deadAt (removeChild h p c) j := by
  unfold removeChild
  split
  · exact hd
  · split
    · exact deadAt_hmodify _ _ _ _ (fun e he => he) (fun e he => he)
        (deadAt_hmodify _ _ _ _ (fun e he => he) (fun e he => he) hd)
    · exact hd

theorem isSome_destroyStep :
    ∀ (fuel : ℕ) (h : Heap) (l : List ℕ) (j : ℕ),
      (hlookup (destroyStep fuel h l).1 j).isSome = (hlookup h j).isSome := by
  intro fuel
  induction fuel with
  | zero => intro h l j; rfl
  | succ fuel ih =>
      intro h l j
      cases l with
      | nil => rfl
      | cons i rest =>
          simp only [destroyStep]
          cases hl : hlookup h i with
          | none => exact ih h rest j
          | some d =>
              simp only []
              rw [ih _ rest j, isSome_hmodify]
              have h2 : ∀ h' : Heap,
                  (hlookup (match (hlookup h' i).bind (fun e => e.parent) with
                    | some p => removeChild h' p i
                    | none => h') j).isSome = (hlookup h' j).isSome := by
                intro h'
                split
                · rw [isSome_removeChild]
                · rfl
              rw [h2, isSome_hmodify, ih _ d.children j]

end Bups

namespace Bups

theorem tags_destroyStep :
    ∀ (fuel : ℕ) (h : Heap) (l : List ℕ) (j : ℕ),
      (hlookup (destroyStep fuel h l).1 j).map (fun e => e.tags) =
        (hlookup h j).map (fun e => e.tags) := by
  intro fuel
  induction fuel with
  | zero => intro h l j; rfl
  | succ fuel ih =>
      intro h l j
      cases l with
      | nil => rfl
      | cons i rest =>
          simp only [destroyStep]
          cases hl : hlookup h i with
          | none => exact ih h rest j
          | some d =>
              simp only []
              rw [ih _ rest j]
              have h2 : ∀ h' : Heap,
                  (hlookup (match (hlookup h' i).bind (fun e => e.parent) with
                    | some p => removeChild h' p i
                    | none => h') j).map (fun e => e.tags) =
                    (hlookup h' j).map (fun e => e.tags) := by
                intro h'
                split
                · rw [tags_removeChild]
                · rfl
              rw [tags_hmodify _ i (fun e => { e with active := false }) j fun e => rfl,
                h2, tags_hmodify _ i (fun e => { e with components := [] }) j fun e => rfl,
                ih _ d.children j]

theorem deadAt_destroyStep :
    ∀ (fuel : ℕ) (h : Heap) (l : List ℕ) (j : ℕ),
      deadAt h j → deadAt (destroyStep fuel h l).1 j := by
  intro fuel
  induction fuel with
  | zero => intro h l j hd; exact hd
  | succ fuel ih =>
      intro h l j hd
      cases l with
      | nil => exact hd
      | cons i rest =>
          simp only [destroyStep]
          cases hl : hlookup h i with
          | none => exact ih h rest j hd
          | some d =>
              simp only []
              have h2 : ∀ h' : Heap, deadAt h' j →
                  deadAt (match (hlookup h' i).bind (fun e => e.parent) with
                    | some p => removeChild h' p i
                    | none => h') j := by
                intro h' hd'
                split
                · exact deadAt_removeChild _ _ _ _ hd'
                · exact hd'
              apply ih _ rest j
              refine deadAt_hmodify _ _ _ _ ?_ ?_ ?_
              · intro e _
                rfl
              · intro e he
                exact he
              refine h2 _ ?_
              refine deadAt_hmodify _ _ _ _ ?_ ?_ ?_
              · intro e he
                exact he
              · intro e _
                rfl
              exact ih _ d.children j hd

end Bups

namespace Bups

/-- An entity that is present with a cleared component map (the state after
the `components.clear()` of `destroy`, before `active` is lowered). -/
def presentCompsNil (h : Heap) (i : ℕ) : Prop :=
  ∃ e, hlookup h i = some e ∧ e.components = []

theorem presentCompsNil_hmodify (h : Heap) (i : ℕ) (f : EntityData → EntityData)
    (j : ℕ) (hfc : ∀ e, e.components = [] → (f e).components = [])
    (hp : presentCompsNil h j) : presentCompsNil (hmodify h i f) j := by
  obtain ⟨e, hl, hc⟩ := hp
  unfold presentCompsNil
  rw [hlookup_hmodify]
  split
  · exact ⟨f e, by rw [hl]; rfl, hfc e hc⟩
  · exact ⟨e, hl, hc⟩

theorem presentCompsNil_removeChild (h : Heap) (p c j : ℕ)
    (hp : presentCompsNil h j) : presentCompsNil (removeChild h p c) j := by
  unfold removeChild
  split
  · exact hp
  · split
    · refine presentCompsNil_hmodify _ _ _ _ ?_ (presentCompsNil_hmodify _ _ _ _ ?_ hp)
      · intro e he
        exact he
      · intro e he
        exact he
    · exact hp

theorem destroyStep_visited_dead :
    ∀ (fuel : ℕ) (h : Heap) (l : List ℕ) (d : ℕ),
      d ∈ (destroyStep fuel h l).2.1 → deadAt (destroyStep fuel h l).1 d := by
  intro fuel
  induction fuel with
  | zero =>
      intro h l d hd
      simp [destroyStep] at hd
  | succ fuel ih =>
      intro h l d hd
      cases l with
      | nil => simp [destroyStep] at hd
      | cons i rest =>
          rcases hE : hlookup h i with _ | d0
          · simp only [destroyStep, hE] at hd ⊢
            exact ih h rest d hd
          · simp only [destroyStep, hE] at hd ⊢
            rcases List.mem_append.mp hd with hd1 | hd2
            · rcases List.mem_append.mp hd1 with hdc | hdi
              · -- destroyed among the children: dead in rc.1, preserved after
                have hdc' := ih h d0.children d hdc
                apply deadAt_destroyStep
                refine deadAt_hmodify _ _ _ _ ?_ ?_ ?_
                · intro e _
                  rfl
                · intro e he
                  exact he
                have h2 : ∀ h' : Heap, deadAt h' d →
                    deadAt (match (hlookup h' i).bind (fun e => e.parent) with
                      | some p => removeChild h' p i
                      | none => h') d := by
                  intro h' hd'
                  split
                  · exact deadAt_removeChild _ _ _ _ hd'
                  · exact hd'
                refine h2 _ ?_
                refine deadAt_hmodify _ _ _ _ ?_ ?_ ?_
                · intro e he
                  exact he
                · intro e _
                  rfl
                exact hdc'
              · -- d = i itself
                have hdi' : d = i := by simpa using hdi
                subst hdi'
                apply deadAt_destroyStep
                -- after `components := []` the entity is present with no components
                have hsome : (hlookup (destroyStep fuel h d0.children).1 d).isSome = true := by
                  rw [isSome_destroyStep, hE]
                  rfl
                obtain ⟨e1, he1⟩ : ∃ e1, hlookup (destroyStep fuel h d0.children).1 d = some e1 := by
                  cases hx : hlookup (destroyStep fuel h d0.children).1 d with
                  | none => rw [hx] at hsome; cases hsome
                  | some e1 => exact ⟨e1, rfl⟩
                have hp1 : presentCompsNil
                    (hmodify (destroyStep fuel h d0.children).1 d
                      fun e => { e with components := [] }) d := by
                  unfold presentCompsNil
                  rw [hlookup_hmodify, if_pos rfl, he1]
                  exact ⟨_, rfl, rfl⟩
                have hp2 : ∀ h' : Heap, presentCompsNil h' d →
                    presentCompsNil (match (hlookup h' d).bind (fun e => e.parent) with
                      | some p => removeChild h' p d
                      | none => h') d := by
                  intro h' hp'
                  split
                  · exact presentCompsNil_removeChild _ _ _ _ hp'
                  · exact hp'
                obtain ⟨e2, he2, hc2⟩ := hp2 _ hp1
                unfold deadAt
                rw [hlookup_hmodify, if_pos rfl, he2]
                exact ⟨_, rfl, rfl, hc2⟩
            · -- destroyed in the tail work list
              exact ih _ rest d hd2

end Bups

namespace Bups

theorem lookup_cons_eq2 {β : Type} (k : String) (v : β) (t : List (String × β)) :
    List.lookup k ((k, v) :: t) = some v := by
  simp [List.lookup]

theorem lookup_cons_ne2 {β : Type} (j k : String) (v : β) (t : List (String × β))
    (h : j ≠ k) : List.lookup j ((k, v) :: t) = List.lookup j t := by
  have hb : (j == k) = false := by simp [h]
  simp [List.lookup, hb]

theorem lookup_unindexTag (ti : List (String × List ℕ)) (tag : String) (i : ℕ)
    (t' : String) :
    (unindexTag ti tag i).lookup t' =
      if t' = tag then (ti.lookup t').map (fun s => s.erase i) else ti.lookup t' := by
  induction ti with
  | nil =>
      simp only [unindexTag, List.map_nil]
      split <;> rfl
  | cons p t ih =>
      obtain ⟨k, v⟩ := p
      simp only [unindexTag, List.map_cons] at *
      by_cases hjk : t' = k
      · subst hjk
        by_cases hji : t' = tag
        · rw [if_pos hji, if_pos hji, lookup_cons_eq2, lookup_cons_eq2, Option.map_some']
        · rw [if_neg hji, if_neg hji, lookup_cons_eq2, lookup_cons_eq2]
      · by_cases hki : k = tag
        · rw [if_pos hki, lookup_cons_ne2 _ _ _ _ hjk, lookup_cons_ne2 _ _ _ _ hjk]
          exact ih
        · rw [if_neg hki, lookup_cons_ne2 _ _ _ _ hjk, lookup_cons_ne2 _ _ _ _ hjk]
          exact ih

theorem tagIndex_foldl_lookup (e : ℕ) :
    ∀ (tags : List String) (ti : List (String × List ℕ)) (t' : String) (s' : List ℕ),
      (tags.foldl (fun ti tag => unindexTag ti tag e) ti).lookup t' = some s' →
      ∃ s, ti.lookup t' = some s ∧ ∀ d, d ≠ e → (d ∈ s' ↔ d ∈ s) := by
  intro tags
  induction tags with
  | nil =>
      intro ti t' s' h
      exact ⟨s', h, fun d _ => Iff.rfl⟩
  | cons tag tags ih =>
      intro ti t' s' h
      simp only [List.foldl_cons] at h
      obtain ⟨s1, hs1, hmem1⟩ := ih _ t' s' h
      rw [lookup_unindexTag] at hs1
      by_cases ht : t' = tag
      · rw [if_pos ht] at hs1
        cases hst : ti.lookup t' with
        | none => rw [hst] at hs1; cases hs1
        | some s0 =>
            rw [hst] at hs1
            simp only [Option.map_some', Option.some.injEq] at hs1
            refine ⟨s0, rfl, fun d hdne => ?_⟩
            rw [hmem1 d hdne, ← hs1]
            exact List.mem_erase_of_ne hdne
      · rw [if_neg ht] at hs1
        exact ⟨s1, hs1, hmem1⟩

end Bups

namespace Bups

/-- C10: `World.removeEntity(e)` destroys `e`'s entire subtree — every
entity the recursive `destroy` visits ends inactive with its component map
cleared and its tags untouched — but deletes only `e` itself from the
World's id map, root list and tag index.  Every destroyed strict descendant
`d` of `e` therefore remains in the entities map afterwards: `getEntity d`
still returns it (inactive) and `getStats` still counts it, while it is
excluded from `getEntities`, `getRootEntities` and `getEntitiesWithTag`
purely by their `active` filters — the underlying id list, root array and
tag sets still contain `d` exactly as before, only `e` having been
erased. -/
theorem world_removeEntity_subtree (fuel : ℕ) (w : WorldState) (e d : ℕ)
    (_hok : (World.removeEntity fuel w e).2.2 = true)
    (hd : d ∈ (World.removeEntity fuel w e).2.1)
    (hne : d ≠ e)
    (hdid : d ∈ w.entityIds) :
    (∃ dd, World.getEntity (World.removeEntity fuel w e).1 d = some dd ∧
       dd.active = false ∧ dd.components = [] ∧
       ∀ d0, hlookup w.heap d = some d0 → dd.tags = d0.tags) ∧
    d ∈ (World.removeEntity fuel w e).1.entityIds ∧
    (World.removeEntity fuel w e).1.entityIds = w.entityIds.erase e ∧
    (World.removeEntity fuel w e).1.rootEntities = w.rootEntities.erase e ∧
    World.statsEntities (World.removeEntity fuel w e).1 = (w.entityIds.erase e).length ∧
    (∀ p ∈ World.getEntities (World.removeEntity fuel w e).1, p.1 ≠ d) ∧
    d ∉ World.getRootEntities (World.removeEntity fuel w e).1 ∧
    (∀ tag, d ∉ World.getEntitiesWithTag (World.removeEntity fuel w e).1 tag) ∧
    (∀ tag s', ((World.removeEntity fuel w e).1.tagIndex).lookup tag = some s' →
       ∃ s, w.tagIndex.lookup tag = some s ∧ (d ∈ s' ↔ d ∈ s)) := by
  have hWheap : (World.removeEntity fuel w e).1.heap = (destroyStep fuel w.heap [e]).1 := rfl
  have hWids : (World.removeEntity fuel w e).1.entityIds = w.entityIds.erase e := rfl
  have hd' : d ∈ (destroyStep fuel w.heap [e]).2.1 := hd
  have hdead := destroyStep_visited_dead fuel w.heap [e] d hd'
  obtain ⟨dd, hl, ha, hc⟩ := hdead
  have hmemids : d ∈ w.entityIds.erase e := (List.mem_erase_of_ne hne).mpr hdid
  refine ⟨⟨dd, ?_, ha, hc, ?_⟩, by rw [hWids]; exact hmemids, rfl, rfl, rfl, ?_, ?_, ?_, ?_⟩
  · show World.getEntity _ d = some dd
    unfold World.getEntity
    rw [hWids, if_pos hmemids, hWheap]
    exact hl
  · intro d0 hd0
    have htags := tags_destroyStep fuel w.heap [e] d
    rw [hl, hd0] at htags
    simpa using htags
  · intro p hp hpd
    unfold World.getEntities at hp
    rw [List.mem_filter] at hp
    obtain ⟨hp1, hp2⟩ := hp
    rw [List.mem_filterMap] at hp1
    obtain ⟨i, _, hi⟩ := hp1
    rw [hWheap] at hi
    cases hx : hlookup (destroyStep fuel w.heap [e]).1 i with
    | none => rw [hx] at hi; cases hi
    | some di =>
        rw [hx] at hi
        simp only [Option.map_some', Option.some.injEq] at hi
        rw [← hi] at hp2 hpd
        simp only at hp2 hpd
        rw [hpd] at hx
        rw [hl] at hx
        cases hx
        rw [ha] at hp2
        cases hp2
  · intro hmem
    unfold World.getRootEntities at hmem
    rw [List.mem_filter] at hmem
    obtain ⟨_, hp2⟩ := hmem
    rw [hWheap, hl] at hp2
    simp only [ha] at hp2
    cases hp2
  · intro tag hmem
    unfold World.getEntitiesWithTag at hmem
    rcases hlk : (List.lookup tag ((World.removeEntity fuel w e).1.tagIndex)) with _ | s
    · rw [hlk] at hmem
      cases hmem
    · rw [hlk] at hmem
      simp only at hmem
      rw [List.mem_filter] at hmem
      obtain ⟨_, hp2⟩ := hmem
      rw [hWheap, hl] at hp2
      simp only [ha] at hp2
      cases hp2
  · intro tag s' hs'
    obtain ⟨s, hs, hmem⟩ := tagIndex_foldl_lookup e _ w.tagIndex tag s' hs'
    exact ⟨s, hs, hmem d hne⟩

end Bups

namespace Bups

/-- A small concrete world for the C10 witness: entity 0 (root, tagged
"boss") with child 1 (tagged "enemy"), which has child 2. -/
def w10 : WorldState :=
  { heap :=
      [(0, ⟨"root", true, none, [1], ["Transform"], ["boss"]⟩),
       (1, ⟨"mid", true, some 0, [2], ["Transform"], ["enemy"]⟩),
       (2, ⟨"leaf", true, some 1, [], [], []⟩)]
    entityIds := [0, 1, 2]
    rootEntities := [0]
    tagIndex := [("boss", [0]), ("enemy", [1])] }

theorem world_removeEntity_subtree_witness :
    1 ∈ (World.removeEntity 10 w10 0).1.entityIds ∧
    (∀ p ∈ World.getEntities (World.removeEntity 10 w10 0).1, p.1 ≠ 1) ∧
    (∀ tag, 1 ∉ World.getEntitiesWithTag (World.removeEntity 10 w10 0).1 tag) := by
  have h := world_removeEntity_subtree 10 w10 0 1 (by decide) (by decide)
    (by decide) (by decide)
  exact ⟨h.2.1, h.2.2.2.2.2.1, h.2.2.2.2.2.2.2.1⟩

end Bups

namespace Bups

/-- Witness for C3: a freshly constructed static body is static, and three
integrator steps leave it (and its Transform) unchanged. -/
theorem rigidBody_static_inert_witness :
    (RigidBody.init .static).bodyType = BodyType.static ∧
    iterFixed dummyOracle 1 3 (RigidBody.init .static, some Transform.fresh) =
      (RigidBody.init .static, some Transform.fresh) :=
  ⟨rfl, (rigidBody_static_inert dummyOracle 1 3 (some Transform.fresh)).2.2.2.2
    (RigidBody.init .static) rfl⟩

end Bups
